import Mathlib

/-!
# Verification of the minexcel block-extraction core

A shallow embedding of `src/minexcel/utils.py` and `src/minexcel/block.py`.

Cells are a tagged union (string / number / NA), a grid (a
`pandas.DataFrame` read from a sheet, positionally indexed) is a list of
rows.  Fallible Python code (`assert`, `ValueError`, `IndexError`) is
embedded in `Except Err`.  Spreadsheet I/O (`read_excel_with_merged_cell`)
is out of scope: the functions here take the already-loaded grid.
-/

set_option maxHeartbeats 1600000

namespace Minexcel

/-- A cell value: NA (`None` in the sheet), a string, or a number.
The code only distinguishes strings / non-strings / NA, so numbers are
modelled as integers. -/
inductive Cell where
  | empty : Cell
  | str (s : String) : Cell
  | num (n : Int) : Cell
deriving DecidableEq, Repr

/-- `pd.isna` on one cell. -/
def Cell.isNa : Cell → Bool
  | .empty => true
  | _ => false

/-- A positionally indexed DataFrame: list of rows of cells. -/
abbrev Grid := List (List Cell)

/-- Cell at (row, col); out-of-range reads are clamped to NA (the Python
code only reads in-range positions in the situations proved below). -/
def getCell (g : Grid) (r c : Nat) : Cell := (g.getD r []).getD c .empty

/-- `df.shape[0]`. -/
def nRows (g : Grid) : Nat := g.length

/-- `df.shape[1]` of a rectangular frame. -/
def nCols (g : Grid) : Nat := (g.headD []).length

/-- Every row has the frame's column count (pandas frames are rectangular). -/
def rectB (g : Grid) : Bool := g.all (fun row => row.length == nCols g)

/-! ## utils.check_int_serial -/

/-- `list(range(a, b + 1))` over ℤ. -/
def intRange (a b : Int) : List Int :=
  (List.range (b + 1 - a).toNat).map (fun i : Nat => a + (i : Int))

/-- `check_int_serial(ser, sort=False)` from `utils.py`.

Python's `sorted` is a stable ascending sort, modelled by `insertionSort`
(any stable comparison sort computes the same list).  `min`/`max` raise
`ValueError` on an empty sequence; `none` models that failure. -/
def check_int_serial (ser : List Int) (sort : Bool := false) : Option Bool :=
  let s := if sort then ser.insertionSort (· ≤ ·) else ser
  match s.min?, s.max? with
  | some mn, some mx => some (decide (s = intRange mn mx))
  | _, _ => none

/-- Spec-side notion, written independently of the code: a list is
"literally the ascending run" when every element is its predecessor
plus one. -/
def isAscRun (l : List Int) : Prop := l.Chain' (fun a b => b = a + 1)

instance (l : List Int) : Decidable (isAscRun l) := by
  unfold isAscRun
  infer_instance

/-! ### Lemmas about `intRange` and ascending runs -/

theorem mem_intRange_iff {y a b : Int} : y ∈ intRange a b ↔ a ≤ y ∧ y ≤ b := by
  simp only [intRange, List.mem_map, List.mem_range]
  constructor
  · rintro ⟨i, hi, rfl⟩
    exact ⟨by omega, by omega⟩
  · intro h
    exact ⟨(y - a).toNat, by omega, by omega⟩

theorem intRange_cons {a b : Int} (h : a ≤ b) :
    intRange a b = a :: intRange (a + 1) b := by
  unfold intRange
  have h1 : (b + 1 - a).toNat = (b + 1 - (a + 1)).toNat + 1 := by omega
  rw [h1, List.range_succ_eq_map]
  simp only [List.map_cons, List.map_map, Nat.cast_zero, add_zero, List.cons.injEq]
  refine ⟨trivial, ?_⟩
  apply List.map_congr_left
  intro i _
  simp only [Function.comp_apply]
  push_cast
  ring

theorem isAscRun_intRange (a b : Int) : isAscRun (intRange a b) := by
  unfold intRange
  generalize (b + 1 - a).toNat = n
  induction n generalizing a with
  | zero => simp [isAscRun]
  | succ m ih =>
    rw [List.range_succ_eq_map]
    simp only [List.map_cons, List.map_map, Nat.cast_zero, add_zero]
    unfold isAscRun
    rw [List.chain'_cons']
    refine ⟨?_, ?_⟩
    · intro y hy
      cases m with
      | zero => simp at hy
      | succ m' =>
        rw [List.range_succ_eq_map] at hy
        simp only [List.map_cons, Function.comp_apply, List.head?_cons,
          Option.mem_def, Option.some.injEq] at hy
        omega
    · have heq : (List.map ((fun i : Nat => a + (i : Int)) ∘ Nat.succ) (List.range m)) =
          (List.map (fun i : Nat => (a + 1) + (i : Int)) (List.range m)) := by
        apply List.map_congr_left
        intro i _
        simp only [Function.comp_apply]
        push_cast
        ring
      rw [heq]
      exact ih (a + 1)

theorem ascRun_eq_intRange {x : Int} {xs : List Int} (h : isAscRun (x :: xs)) :
    x :: xs = intRange x (x + xs.length) := by
  induction xs generalizing x with
  | nil =>
    simp only [List.length_nil, Nat.cast_zero, add_zero]
    unfold intRange
    rw [show (x + 1 - x).toNat = 0 + 1 from by omega, List.range_succ]
    simp
  | cons y ys ih =>
    have h' := h
    unfold isAscRun at h'
    rw [List.chain'_cons] at h'
    obtain ⟨hy, hchain⟩ := h'
    have hrec := ih hchain
    rw [intRange_cons (by simp; omega)]
    rw [show x + 1 = y from by omega]
    have hlen : x + ((y :: ys).length : Int) = y + (ys.length : Int) := by
      simp
      omega
    rw [hlen, ← hrec]

theorem foldl_min_eq {x : Int} {xs : List Int} (h : ∀ y ∈ xs, x ≤ y) :
    xs.foldl min x = x := by
  induction xs generalizing x with
  | nil => rfl
  | cons y ys ih =>
    simp only [List.foldl_cons]
    rw [min_eq_left (h y (by simp))]
    exact ih (fun z hz => h z (by simp [hz]))

theorem foldl_max_eq {x m : Int} {xs : List Int} (hmem : m ∈ x :: xs)
    (hub : ∀ y ∈ x :: xs, y ≤ m) : xs.foldl max x = m := by
  induction xs generalizing x with
  | nil =>
    simp only [List.mem_singleton] at hmem
    simp [hmem]
  | cons y ys ih =>
    simp only [List.foldl_cons]
    have hxy : max x y ≤ m := max_le (hub x (by simp)) (hub y (by simp))
    apply ih
    · rcases List.mem_cons.1 hmem with h | h
      · have hm : max x y = m := le_antisymm hxy (by rw [h]; exact le_max_left x y)
        rw [← hm] at *
        exact List.mem_cons_self _ _
      · rcases List.mem_cons.1 h with h' | h'
        · have hm : max x y = m := le_antisymm hxy (by rw [h']; exact le_max_right x y)
          rw [← hm] at *
          exact List.mem_cons_self _ _
        · exact List.mem_cons_of_mem _ h'
    · intro z hz
      rcases List.mem_cons.1 hz with h | h
      · rw [h]
        exact hxy
      · exact hub z (by simp [h])

/-- Core characterisation: a non-empty list equals `range(min, max + 1)`
iff it is an ascending run. -/
theorem eq_intRange_iff_ascRun {x : Int} {xs : List Int} :
    x :: xs = intRange (xs.foldl min x) (xs.foldl max x) ↔ isAscRun (x :: xs) := by
  constructor
  · intro h
    rw [h]
    exact isAscRun_intRange _ _
  · intro h
    have he := ascRun_eq_intRange h
    have hmem : ∀ y ∈ x :: xs, x ≤ y ∧ y ≤ x + xs.length := by
      intro y hy
      rw [he] at hy
      exact mem_intRange_iff.1 hy
    have hmin : xs.foldl min x = x :=
      foldl_min_eq (fun y hy => (hmem y (by simp [hy])).1)
    have hlast : (x + (xs.length : Int)) ∈ x :: xs := by
      rw [he]
      exact mem_intRange_iff.2 ⟨by simp, le_refl _⟩
    have hmax : xs.foldl max x = x + xs.length :=
      foldl_max_eq hlast (fun y hy => (hmem y hy).2)
    rw [hmin, hmax, he]

theorem min?_cons_eq (x : Int) (xs : List Int) :
    (x :: xs).min? = some (xs.foldl min x) := by
  simp [List.min?]

theorem max?_cons_eq (x : Int) (xs : List Int) :
    (x :: xs).max? = some (xs.foldl max x) := by
  simp [List.max?]

theorem check_int_serial_false_def (l : List Int) :
    check_int_serial l false =
      (match l.min?, l.max? with
       | some mn, some mx => some (decide (l = intRange mn mx))
       | _, _ => none) := rfl

theorem check_int_serial_true_def (l : List Int) :
    check_int_serial l true =
      (match (l.insertionSort (· ≤ ·)).min?, (l.insertionSort (· ≤ ·)).max? with
       | some mn, some mx =>
           some (decide ((l.insertionSort (· ≤ ·)) = intRange mn mx))
       | _, _ => none) := rfl

theorem insertionSort_ne_nil {l : List Int} (h : l ≠ []) :
    l.insertionSort (· ≤ ·) ≠ [] := by
  intro hcon
  have hp := List.perm_insertionSort (fun a b : Int => a ≤ b) l
  rw [hcon] at hp
  exact h hp.nil_eq.symm

/-- `check_int_serial` on a non-empty list (no sorting) decides exactly
"is an ascending run". -/
theorem check_int_serial_false_eq (x : Int) (xs : List Int) :
    check_int_serial (x :: xs) false = some (decide (isAscRun (x :: xs))) := by
  rw [check_int_serial_false_def, min?_cons_eq, max?_cons_eq]
  show some (decide (x :: xs = intRange (xs.foldl min x) (xs.foldl max x))) = _
  congr 1
  rw [decide_eq_decide]
  exact eq_intRange_iff_ascRun

theorem check_int_serial_nil (b : Bool) : check_int_serial [] b = none := by
  cases b <;> rfl

theorem check_int_serial_true_eq (x : Int) (xs : List Int) :
    check_int_serial (x :: xs) true =
      some (decide (isAscRun ((x :: xs).insertionSort (· ≤ ·)))) := by
  obtain ⟨y, ys, hy⟩ :=
    List.exists_cons_of_ne_nil (insertionSort_ne_nil (by simp : x :: xs ≠ []))
  rw [check_int_serial_true_def, hy, min?_cons_eq, max?_cons_eq]
  show some (decide (y :: ys = intRange (ys.foldl min y) (ys.foldl max y))) = _
  congr 1
  rw [decide_eq_decide]
  exact eq_intRange_iff_ascRun

theorem check_int_serial_ne_none {l : List Int} (h : l ≠ []) (b : Bool) :
    check_int_serial l b ≠ none := by
  obtain ⟨x, xs, rfl⟩ := List.exists_cons_of_ne_nil h
  cases b
  · rw [check_int_serial_false_eq]
    simp
  · rw [check_int_serial_true_eq]
    simp

/-- CLAIM C4.  For every non-empty integer sequence, `check_int_serial`
with `sort=false` returns true iff the sequence, in its given order, is
literally the ascending run from its minimum to its maximum (equivalently:
each element is its predecessor plus one); with `sort=true` it returns true
iff the stably-sorted sequence is such a run.  The four concrete examples
of the spec hold, and on an empty input the function fails (models the
`ValueError` from `min()`) rather than returning a value. -/
theorem check_int_serial_spec (l : List Int) (h : l ≠ []) :
    (check_int_serial l false = some true ↔ isAscRun l) ∧
    (check_int_serial l true = some true ↔ isAscRun (l.insertionSort (· ≤ ·))) ∧
    check_int_serial [1, 2, 3] false = some true ∧
    check_int_serial [1, 3, 3] false = some false ∧
    check_int_serial [1, 3, 2, 4] false = some false ∧
    check_int_serial [1, 3, 2, 4] true = some true ∧
    (∀ b, check_int_serial ([] : List Int) b = none) := by
  obtain ⟨x, xs, rfl⟩ := List.exists_cons_of_ne_nil h
  refine ⟨?_, ?_, by decide, by decide, by decide, by decide, check_int_serial_nil⟩
  · rw [check_int_serial_false_eq]
    simp
  · rw [check_int_serial_true_eq]
    simp

/-- Witness for C4 at the concrete input `[1, 2, 3]`. -/
theorem check_int_serial_spec_witness :
    check_int_serial [1, 2, 3] false = some true ↔ isAscRun [1, 2, 3] :=
  (check_int_serial_spec [1, 2, 3] (by decide)).1

/-! ## block.parse_template

The template file is read with `read_excel_with_merged_cell` (out of
scope); `parse_template` below takes the resulting grid.  The `assert`
statements of the parser are template-structure violations, the spec's
StructuralError.
-/

/-- Failure kinds.  `structural` models an `assert` about template
structure (spec: StructuralError), `shape` an `assert` about grid
dimensions (spec: ShapeError), `value` the `ValueError` / `IndexError` /
`ZeroDivisionError` family raised outside any assert. -/
inductive Err where
  | structural (msg : String)
  | shape (msg : String)
  | value (msg : String)
deriving DecidableEq, Repr

/-- Python's `\w` (ASCII reading): letters, digits, underscore. -/
def wordChar (ch : Char) : Bool := ch.isAlphanum || ch == '_'

/-- `re.match(r"(\w+)\[<tag>\]", s)`: the pattern is anchored at the start,
`\w+` is greedy and `[` is not a word character, so it matches iff the
maximal word-character prefix is non-empty and is immediately followed by
the literal `[<tag>]`; trailing text is ignored.  Returns `group(1)`. -/
def matchMarker (tag : String) (s : String) : Option String :=
  let l := s.data
  let key := l.takeWhile wordChar
  if key.isEmpty then none
  else if ('[' :: tag.data ++ [']']).isPrefixOf (l.dropWhile wordChar) then
    some (String.mk key)
  else none

/-- `isinstance(cell, str)` guard plus the regex match. -/
def cellKey (tag : String) : Cell → Option String
  | .str s => matchMarker tag s
  | _ => none

/-- `tmpl_df.isna().sum(axis=0) != 0` at one column. -/
def colHasNa (g : Grid) (c : Nat) : Bool :=
  g.any (fun row => (row.getD c .empty).isNa)

/-- `tmpl_df.isna().sum(axis=1) != 0` at one row. -/
def rowHasNa (row : List Cell) : Bool := row.any Cell.isNa

/-- `data_cols[data_cols].index.to_list()`: columns with at least one NA. -/
def dataColsList (g : Grid) : List Nat :=
  (List.range (nCols g)).filter (colHasNa g)

/-- rows with at least one NA. -/
def dataRowsList (g : Grid) : List Nat :=
  (List.range (nRows g)).filter (fun r => rowHasNa (g.getD r []))

/-- the columns of `tmpl_df.loc[:, ~data_cols]`, in order. -/
def nonDataCols (g : Grid) : List Nat :=
  (List.range (nCols g)).filter (fun c => !colHasNa g c)

/-- the rows of `tmpl_df.loc[~data_rows, :]`, in order. -/
def nonDataRows (g : Grid) : List Nat :=
  (List.range (nRows g)).filter (fun r => !rowHasNa (g.getD r []))

/-- A recorded tablemeta value.  The source appends every found position to
a list and afterwards replaces the list by its first element ONLY when the
key was found more than once; a once-seen key keeps its raw singleton
list. -/
inductive TMVal where
  /-- `positions[0]`: key seen more than once, collapsed to the first
  (row-major) position. -/
  | single (p : Nat × Nat)
  /-- the raw positions list, left uncollapsed (key seen exactly once). -/
  | rawList (l : List (Nat × Nat))
deriving DecidableEq, Repr

/-- `result["tablemeta"].setdefault(key, []).append(pos)`:
insertion-ordered association list, append keeps the key's position. -/
def addPos (m : List (String × List (Nat × Nat))) (k : String) (p : Nat × Nat) :
    List (String × List (Nat × Nat)) :=
  match m with
  | [] => [(k, [p])]
  | (k', l) :: rest =>
    if k' = k then (k', l ++ [p]) :: rest else (k', l) :: addPos rest k p

/-- The row-major tablemeta scan (`for irow, row in tmpl_df.iterrows(): for
icol, cell in enumerate(row): ...`). -/
def tablemetaRaw (g : Grid) : List (String × List (Nat × Nat)) :=
  g.enum.foldl (fun m rrow =>
    rrow.2.enum.foldl (fun m ccell =>
      match cellKey "tablemeta" ccell.2 with
      | some k => addPos m k (rrow.1, ccell.1)
      | none => m) m) []

/-- The "use the first found position" fix-up (applied only when
`len(positions) > 1`). -/
def tablemetaFinal (g : Grid) : List (String × TMVal) :=
  (tablemetaRaw g).map (fun kl =>
    (kl.1, if kl.2.length > 1 then TMVal.single (kl.2.headD (0, 0))
           else TMVal.rawList kl.2))

/-- The `(key, index)` matches of one metadata column, top to bottom
(`for irow, cell in col.items()`). -/
def collectRowmeta (g : Grid) (icol : Nat) : List (String × Nat) :=
  (List.range (nRows g)).filterMap (fun r =>
    (cellKey "rowmeta" (getCell g r icol)).map (fun k => (k, r)))

/-- The `(key, index)` matches of one metadata row, left to right
(`for icol, cell in enumerate(row)`). -/
def collectColmeta (g : Grid) (irow : Nat) : List (String × Nat) :=
  (List.range (nCols g)).filterMap (fun c =>
    (cellKey "colmeta" (getCell g irow c)).map (fun k => (k, c)))

/-- One recorded rowmeta / colmeta entry: `{'col': .., 'start': .., 'end': ..}`
(for rowmeta `axisIdx` is the column, for colmeta the row; `end` is a Lean
keyword, hence `stop`). -/
structure MetaRange where
  axisIdx : Nat
  start : Nat
  stop : Nat
deriving DecidableEq, Repr

/-- `min(range_list)` of a non-empty list (0 is never reached). -/
def minNat : List Nat → Nat
  | [] => 0
  | x :: xs => xs.foldl min x

/-- `max(range_list)`. -/
def maxNat : List Nat → Nat
  | [] => 0
  | x :: xs => xs.foldl max x

/-- Python dict assignment `m[k] = v`: overwrite in place, or append a new
key at the end. -/
def setKey (m : List (String × MetaRange)) (k : String) (v : MetaRange) :
    List (String × MetaRange) :=
  match m with
  | [] => [(k, v)]
  | (k', v') :: rest =>
    if k' = k then (k, v) :: rest else (k', v') :: setKey rest k v

/-- One metadata scan loop.  The rowmeta and colmeta loops of the source
are symmetric; `collect` yields the matches along one non-data column/row,
`allowed` is the data-zone index list the matched range must fall in, and
`tag` only names the error messages. -/
def metaScan (collect : Nat → List (String × Nat)) (allowed : List Nat)
    (tag : String) :
    List Nat → List (String × MetaRange) → Except Err (List (String × MetaRange))
  | [], acc => .ok acc
  | i :: rest, acc =>
    if collect i = [] then metaScan collect allowed tag rest acc
    else if ((collect i).map Prod.fst).dedup.length ≠ 1 then
      .error (.structural ("Multiple " ++ tag ++ " keys found in " ++ toString i))
    else
      match check_int_serial (((collect i).map Prod.snd).map Int.ofNat) false with
      | none => .error (.value "min() arg is an empty sequence")
      | some false =>
        .error (.structural (tag ++ " ranges must be contiguous in " ++ toString i))
      | some true =>
        if ((collect i).map Prod.snd).all (fun r => allowed.contains r) then
          metaScan collect allowed tag rest
            (setKey acc (((collect i).map Prod.fst).headD "")
              ⟨i, minNat ((collect i).map Prod.snd),
                maxNat ((collect i).map Prod.snd)⟩)
        else .error (.structural (tag ++ " out of data zone in " ++ toString i))

/-- The parsed template descriptor (`result` dict of `parse_template`). -/
structure Descriptor where
  block_nrow : Nat
  block_ncol : Nat
  data_nrow : Nat
  data_ncol : Nat
  data_rows_list : List Nat
  data_cols_list : List Nat
  tablemeta : List (String × TMVal)
  rowmeta : List (String × MetaRange)
  colmeta : List (String × MetaRange)
deriving DecidableEq, Repr

/-- `assert check_int_serial(lst), msg` on a list of indices. -/
def assertSerial (lst : List Nat) (msg : String) : Except Err Unit :=
  match check_int_serial (lst.map Int.ofNat) false with
  | none => .error (.value "min() arg is an empty sequence")
  | some false => .error (.structural msg)
  | some true => .ok ()

/-- `parse_template` on the loaded template grid.  The chain follows the
source order: data-zone contiguity asserts (columns first), then the
metadata scans; the tablemeta scan cannot fail and is folded into the
final record. -/
def parse_template (g : Grid) : Except Err Descriptor :=
  match assertSerial (dataColsList g) "Data columns must be contiguous" with
  | .error e => .error e
  | .ok _ =>
    match assertSerial (dataRowsList g) "Data rows must be contiguous" with
    | .error e => .error e
    | .ok _ =>
      match metaScan (collectRowmeta g) (dataRowsList g) "rowmeta"
          (nonDataCols g) [] with
      | .error e => .error e
      | .ok rm =>
        match metaScan (collectColmeta g) (dataColsList g) "colmeta"
            (nonDataRows g) [] with
        | .error e => .error e
        | .ok cm =>
          .ok { block_nrow := nRows g, block_ncol := nCols g,
                data_nrow := (dataRowsList g).length,
                data_ncol := (dataColsList g).length,
                data_rows_list := dataRowsList g,
                data_cols_list := dataColsList g,
                tablemeta := tablemetaFinal g,
                rowmeta := rm, colmeta := cm }

instance {e a : Type} [DecidableEq e] [DecidableEq a] : DecidableEq (Except e a)
  | .error x, .error y =>
    if h : x = y then isTrue (h ▸ rfl) else isFalse (by simp [h])
  | .ok x, .ok y =>
    if h : x = y then isTrue (h ▸ rfl) else isFalse (by simp [h])
  | .error _, .ok _ => isFalse (by simp)
  | .ok _, .error _ => isFalse (by simp)

/-! ## block.parse_block -/

/-- One row of the long-format result: the three fixed columns plus the
metadata columns (tablemeta keys, then rowmeta keys, then colmeta keys, in
descriptor order; a missed rowmeta/colmeta lookup stores Python `None`,
which pandas holds as NA). -/
structure OutRow where
  row_index : Nat
  col_index : Nat
  value : Cell
  meta : List (String × Cell)
deriving DecidableEq, Repr

/-- `block.loc[pos[0], pos[1]]` where `pos` is the stored tablemeta value:
a collapsed pair reads the cell; the uncollapsed one-element list makes
`pos[1]` raise `IndexError` (list index out of range). -/
def tmLookup (b : Grid) : TMVal → Except Err Cell
  | .single p => .ok (getCell b p.1 p.2)
  | .rawList _ => .error (.value "IndexError: list index out of range")

/-- `block_tablemeta`: `{key: block.loc[pos[0], pos[1]] for ...}` over the
descriptor's tablemeta entries in order; the first uncollapsed position
list raises (see `tmLookup`). -/
def tablemetaVals (b : Grid) : List (String × TMVal) → Except Err (List (String × Cell))
  | [] => .ok []
  | kv :: rest =>
    match tmLookup b kv.2 with
    | .error e => .error e
    | .ok c =>
      match tablemetaVals b rest with
      | .error e => .error e
      | .ok cs => .ok ((kv.1, c) :: cs)

/-- `block_rowmeta`: per key, the position-to-value map of the vertical
slice `block.iloc[start : end + 1, col]`. -/
def rowmetaMaps (b : Grid) (tmpl : Descriptor) : List (String × List (Nat × Cell)) :=
  tmpl.rowmeta.map (fun kp =>
    (kp.1, (List.range' kp.2.start (kp.2.stop + 1 - kp.2.start)).map
      (fun i => (i, getCell b i kp.2.axisIdx))))

/-- `block_colmeta`: the horizontal slice `block.iloc[row, start : end + 1]`. -/
def colmetaMaps (b : Grid) (tmpl : Descriptor) : List (String × List (Nat × Cell)) :=
  tmpl.colmeta.map (fun kp =>
    (kp.1, (List.range' kp.2.start (kp.2.stop + 1 - kp.2.start)).map
      (fun i => (i, getCell b kp.2.axisIdx i))))

/-- `data.reset_index(names="row_index").melt(id_vars="row_index", ...)`:
pandas melt stacks the value columns one after the other, so the unpivoted
`(row position, column position, value)` triples run over the data zone
column by column: for each entry of `data_cols_list`, all entries of
`data_rows_list`. -/
def meltData (b : Grid) (tmpl : Descriptor) : List (Nat × Nat × Cell) :=
  tmpl.data_cols_list.flatMap (fun c =>
    tmpl.data_rows_list.map (fun r => (r, c, getCell b r c)))

/-- One result row: metadata joined onto an unpivoted triple
(`d.get(i, None)` is the `getD Cell.empty` lookup), positional indices
translated back to the original labels. -/
def mkOutRow (b : Grid) (rawRows rawCols : List Nat) (tmpl : Descriptor)
    (tmv : List (String × Cell)) (rcv : Nat × Nat × Cell) : OutRow :=
  { row_index := rawRows.getD rcv.1 0,
    col_index := rawCols.getD rcv.2.1 0,
    value := rcv.2.2,
    meta := tmv
      ++ (rowmetaMaps b tmpl).map
          (fun km => (km.1, (km.2.lookup rcv.1).getD Cell.empty))
      ++ (colmetaMaps b tmpl).map
          (fun km => (km.1, (km.2.lookup rcv.2.1).getD Cell.empty)) }

/-- `parse_block(block, tmpl)`.

`rawRows` / `rawCols` are the block's original index labels
(`block.index` / `block.columns`); the body works on the re-keyed
positional frame and translates back at the end via the position-to-label
maps (`dict(zip(...))`, here `getD`). -/
def parse_block (b : Grid) (rawRows rawCols : List Nat) (tmpl : Descriptor) :
    Except Err (List OutRow) :=
  if ¬ (nRows b = tmpl.block_nrow ∧ nCols b = tmpl.block_ncol) then
    .error (.shape "block shape mismatch")
  else
    match tablemetaVals b tmpl.tablemeta with
    | .error e => .error e
    | .ok tmv => .ok ((meltData b tmpl).map (mkOutRow b rawRows rawCols tmpl tmv))

/-- A template grid whose `batch[tablemeta]` marker occurs exactly once,
and a data block matching its shape. -/
def tmplGridOneTablemeta : Grid :=
  [[.str "batch[tablemeta]", .empty], [.str "x", .empty]]

def blockForOneTablemeta : Grid :=
  [[.str "lot7", .num 7], [.str "x", .num 8]]

/-- CLAIM C1 (code bug, evaluated at the failing input).  On a template
whose `batch[tablemeta]` marker occurs exactly once, `parse_template` maps
the key to the raw one-element position list, NOT to the single (row, col)
position its own docstring (`Dict[str, Tuple[int, int]]`), its test
(`{"batch": (0, 0)}`) and its consumer promise: `parse_block` on the
resulting descriptor then crashes with IndexError on `pos[1]`.  The
collapse to `positions[0]` happens only when the marker occurs more than
once. -/
theorem parse_template_single_tablemeta_keeps_list :
    (parse_template tmplGridOneTablemeta).map Descriptor.tablemeta =
      .ok [("batch", TMVal.rawList [(0, 0)])] ∧
    (parse_template
        [[Cell.str "batch[tablemeta]", Cell.empty],
         [Cell.str "batch[tablemeta]", Cell.empty]]).map Descriptor.tablemeta =
      .ok [("batch", TMVal.single (0, 0))] ∧
    ((parse_template tmplGridOneTablemeta).bind (fun d =>
        parse_block blockForOneTablemeta [0, 1] [0, 1] d)) =
      .error (.value "IndexError: list index out of range") := by
  refine ⟨by decide, by decide, by decide⟩

/-! ## C2 and C3: the unpivot order and the round-trip -/

theorem getD_range {n i : Nat} (h : i < n) : (List.range n).getD i 0 = i := by
  simp [List.getD, List.getElem?_range h]

/-- Inversion of a successful `parse_block`. -/
theorem parse_block_ok_inv {b : Grid} {rawRows rawCols : List Nat}
    {tmpl : Descriptor} {out : List OutRow}
    (h : parse_block b rawRows rawCols tmpl = .ok out) :
    ∃ tmv, tablemetaVals b tmpl.tablemeta = .ok tmv ∧
      out = (meltData b tmpl).map (mkOutRow b rawRows rawCols tmpl tmv) := by
  unfold parse_block at h
  split at h
  · exact absurd h (by simp)
  · split at h
    · exact absurd h (by simp)
    · rename_i tmv htm
      exact ⟨tmv, htm, (Except.ok.injEq _ _ ▸ h).symm⟩

/-- CLAIM C2, amended: a successful `parse_block` lists the unpivoted data
triples in COLUMN-major order over the data zone: columns in
data-col-list order and, within each column, rows in data-row-list order
(pandas `melt` stacks the value columns). -/
theorem parse_block_unpivot_order (b : Grid) (rawRows rawCols : List Nat)
    (tmpl : Descriptor) (out : List OutRow)
    (h : parse_block b rawRows rawCols tmpl = .ok out) :
    out.map (fun o => (o.row_index, o.col_index, o.value)) =
      tmpl.data_cols_list.flatMap (fun c => tmpl.data_rows_list.map (fun r =>
        (rawRows.getD r 0, rawCols.getD c 0, getCell b r c))) := by
  obtain ⟨tmv, htm, rfl⟩ := parse_block_ok_inv h
  rw [List.map_map]
  unfold meltData
  rw [List.map_flatMap]
  congr 1
  funext c
  rw [List.map_map]
  rfl

/-- A 2×2 all-data descriptor and block used as concrete counterexample
input for the claimed row-major order. -/
def allDataDescr2 : Descriptor :=
  { block_nrow := 2, block_ncol := 2, data_nrow := 2, data_ncol := 2,
    data_rows_list := [0, 1], data_cols_list := [0, 1],
    tablemeta := [], rowmeta := [], colmeta := [] }

def numBlock2 : Grid := [[.num 1, .num 2], [.num 3, .num 4]]

/-- CLAIM C2, counterexample to the claimed row-major order: on a 2×2 data
zone the triples come out column by column, which differs from the
row-major sequence the claim asserts. -/
theorem parse_block_not_row_major :
    (parse_block numBlock2 [0, 1] [0, 1] allDataDescr2).map
        (fun l => l.map (fun o => (o.row_index, o.col_index, o.value))) =
      .ok [(0, 0, Cell.num 1), (1, 0, Cell.num 3),
           (0, 1, Cell.num 2), (1, 1, Cell.num 4)] ∧
    [(0, 0, Cell.num 1), (1, 0, Cell.num 3), (0, 1, Cell.num 2), (1, 1, Cell.num 4)] ≠
      [(0, 0, Cell.num 1), (0, 1, Cell.num 2), (1, 0, Cell.num 3), (1, 1, Cell.num 4)] := by
  refine ⟨by decide, by decide⟩

/-- Witness for the amended C2 at the concrete 2×2 input. -/
theorem parse_block_unpivot_order_witness :
    ([{ row_index := 0, col_index := 0, value := Cell.num 1, meta := [] },
      { row_index := 1, col_index := 0, value := Cell.num 3, meta := [] },
      { row_index := 0, col_index := 1, value := Cell.num 2, meta := [] },
      { row_index := 1, col_index := 1, value := Cell.num 4, meta := [] }] :
        List OutRow).map (fun o => (o.row_index, o.col_index, o.value)) =
      allDataDescr2.data_cols_list.flatMap (fun c =>
        allDataDescr2.data_rows_list.map (fun r =>
          (([0, 1] : List Nat).getD r 0, ([0, 1] : List Nat).getD c 0,
            getCell numBlock2 r c))) :=
  parse_block_unpivot_order numBlock2 [0, 1] [0, 1] allDataDescr2 _ (by decide)

/-- CLAIM C3.  Re-aggregating a successful `parse_block` result by
`(row_index, col_index)` and reading the value column recovers the
original data-zone sub-grid: for every data-zone position the output
contains a row keyed by it, and every output row keyed by it carries
exactly the original cell value.  (The block carries its natural
positional labels; the data-zone indices are in range.) -/
theorem parse_block_roundtrip (b : Grid) (tmpl : Descriptor) (out : List OutRow)
    (h : parse_block b (List.range (nRows b)) (List.range (nCols b)) tmpl = .ok out)
    (hr : ∀ r ∈ tmpl.data_rows_list, r < nRows b)
    (hc : ∀ c ∈ tmpl.data_cols_list, c < nCols b) :
    ∀ r ∈ tmpl.data_rows_list, ∀ c ∈ tmpl.data_cols_list,
      (∃ o ∈ out, o.row_index = r ∧ o.col_index = c) ∧
      (∀ o ∈ out, o.row_index = r → o.col_index = c → o.value = getCell b r c) := by
  obtain ⟨tmv, htm, rfl⟩ := parse_block_ok_inv h
  intro r hrm c hcm
  constructor
  · refine ⟨mkOutRow b (List.range (nRows b)) (List.range (nCols b)) tmpl tmv
      (r, c, getCell b r c), ?_, ?_, ?_⟩
    · apply List.mem_map_of_mem
      unfold meltData
      exact List.mem_flatMap.2 ⟨c, hcm, List.mem_map_of_mem _ hrm⟩
    · exact getD_range (hr r hrm)
    · exact getD_range (hc c hcm)
  · intro o ho hor hoc
    obtain ⟨rcv, hrcv, rfl⟩ := List.mem_map.1 ho
    unfold meltData at hrcv
    obtain ⟨c', hc', hrv⟩ := List.mem_flatMap.1 hrcv
    obtain ⟨r', hr', rfl⟩ := List.mem_map.1 hrv
    simp only [mkOutRow] at hor hoc ⊢
    rw [getD_range (hr r' hr')] at hor
    rw [getD_range (hc c' hc')] at hoc
    rw [← hor, ← hoc]

/-- Witness for C3 at the concrete 2×2 input, data-zone position (0, 1). -/
theorem parse_block_roundtrip_witness :
    (∃ o ∈ ([{ row_index := 0, col_index := 0, value := Cell.num 1, meta := [] },
      { row_index := 1, col_index := 0, value := Cell.num 3, meta := [] },
      { row_index := 0, col_index := 1, value := Cell.num 2, meta := [] },
      { row_index := 1, col_index := 1, value := Cell.num 4, meta := [] }] :
        List OutRow), o.row_index = 0 ∧ o.col_index = 1) ∧
    (∀ o ∈ ([{ row_index := 0, col_index := 0, value := Cell.num 1, meta := [] },
      { row_index := 1, col_index := 0, value := Cell.num 3, meta := [] },
      { row_index := 0, col_index := 1, value := Cell.num 2, meta := [] },
      { row_index := 1, col_index := 1, value := Cell.num 4, meta := [] }] :
        List OutRow), o.row_index = 0 → o.col_index = 1 →
          o.value = getCell numBlock2 0 1) :=
  parse_block_roundtrip numBlock2 allDataDescr2 _ (by decide)
    (by decide) (by decide) 0 (by decide) 1 (by decide)

/-! ## C5: data-zone inference and contiguity validation -/

theorem check_int_serial_false_of_ne_nil {l : List Int} (h : l ≠ []) :
    check_int_serial l false = some (decide (isAscRun l)) := by
  obtain ⟨x, xs, rfl⟩ := List.exists_cons_of_ne_nil h
  exact check_int_serial_false_eq x xs

theorem assertSerial_ok {lst : List Nat} {msg : String} (h : lst ≠ [])
    (hrun : isAscRun (lst.map Int.ofNat)) : assertSerial lst msg = .ok () := by
  unfold assertSerial
  rw [check_int_serial_false_of_ne_nil (by simpa using h)]
  simp [hrun]

theorem assertSerial_structural {lst : List Nat} {msg : String} (h : lst ≠ [])
    (hrun : ¬ isAscRun (lst.map Int.ofNat)) :
    assertSerial lst msg = .error (.structural msg) := by
  unfold assertSerial
  rw [check_int_serial_false_of_ne_nil (by simpa using h)]
  simp [hrun]

theorem mem_dataColsList {g : Grid} {c : Nat} :
    c ∈ dataColsList g ↔ c < nCols g ∧ colHasNa g c = true := by
  simp [dataColsList, List.mem_filter, List.mem_range]

theorem mem_dataRowsList {g : Grid} {r : Nat} :
    r ∈ dataRowsList g ↔ r < nRows g ∧ rowHasNa (g.getD r []) = true := by
  simp [dataRowsList, List.mem_filter, List.mem_range]

theorem getD_eq_getElem {a : Type} {l : List a} {i : Nat} {d : a}
    (h : i < l.length) : l.getD i d = l[i] := by
  rw [List.getD_eq_getElem?_getD, List.getElem?_eq_getElem h]
  rfl

theorem getCell_eq {g : Grid} {r c : Nat} (hr : r < g.length)
    (hc : c < (g[r]).length) : getCell g r c = (g[r])[c] := by
  unfold getCell
  rw [getD_eq_getElem hr, getD_eq_getElem hc]

theorem colHasNa_iff {g : Grid} {c : Nat} :
    colHasNa g c = true ↔ ∃ r < nRows g, (getCell g r c).isNa = true := by
  unfold colHasNa
  rw [List.any_eq_true]
  constructor
  · rintro ⟨row, hrow, hna⟩
    obtain ⟨r, hr, rfl⟩ := List.mem_iff_getElem.1 hrow
    refine ⟨r, hr, ?_⟩
    unfold getCell
    rw [getD_eq_getElem hr]
    exact hna
  · rintro ⟨r, hr, hna⟩
    refine ⟨g[r], List.getElem_mem hr, ?_⟩
    unfold getCell at hna
    rw [getD_eq_getElem hr] at hna
    exact hna

theorem rowHasNa_iff {g : Grid} {r : Nat} (hrect : rectB g = true)
    (hr : r < nRows g) :
    rowHasNa (g.getD r []) = true ↔ ∃ c < nCols g, (getCell g r c).isNa = true := by
  unfold rowHasNa
  rw [List.any_eq_true]
  have hrow : g.getD r [] = g[r] := getD_eq_getElem hr
  have hlen : (g[r]).length = nCols g := by
    have := List.all_eq_true.1 hrect g[r] (List.getElem_mem hr)
    simpa using this
  constructor
  · rintro ⟨cell, hcell, hna⟩
    rw [hrow] at hcell
    obtain ⟨c, hc, rfl⟩ := List.mem_iff_getElem.1 hcell
    refine ⟨c, by omega, ?_⟩
    unfold getCell
    rw [hrow, getD_eq_getElem hc]
    exact hna
  · rintro ⟨c, hc, hna⟩
    have hc' : c < (g[r]).length := by omega
    refine ⟨(g[r])[c], by rw [hrow]; exact List.getElem_mem hc', ?_⟩
    unfold getCell at hna
    rw [hrow, getD_eq_getElem hc'] at hna
    exact hna

/-- Success inversion for `parse_template`: all checks passed and the
descriptor's fields are the computed ones. -/
theorem parse_template_ok_inv {g : Grid} {d : Descriptor}
    (h : parse_template g = .ok d) :
    assertSerial (dataColsList g) "Data columns must be contiguous" = .ok () ∧
    assertSerial (dataRowsList g) "Data rows must be contiguous" = .ok () ∧
    ∃ rm cm,
      metaScan (collectRowmeta g) (dataRowsList g) "rowmeta"
        (nonDataCols g) [] = .ok rm ∧
      metaScan (collectColmeta g) (dataColsList g) "colmeta"
        (nonDataRows g) [] = .ok cm ∧
      d = { block_nrow := nRows g, block_ncol := nCols g,
            data_nrow := (dataRowsList g).length,
            data_ncol := (dataColsList g).length,
            data_rows_list := dataRowsList g,
            data_cols_list := dataColsList g,
            tablemeta := tablemetaFinal g, rowmeta := rm, colmeta := cm } := by
  unfold parse_template at h
  split at h
  · exact absurd h (by simp)
  · rename_i u1 h1
    split at h
    · exact absurd h (by simp)
    · rename_i u2 h2
      split at h
      · exact absurd h (by simp)
      · rename_i rm hrm
        split at h
        · exact absurd h (by simp)
        · rename_i cm hcm
          refine ⟨?_, ?_, rm, cm, hrm, hcm, ?_⟩
          · rw [h1]
          · rw [h2]
          · exact (Except.ok.injEq _ _ ▸ h).symm

/-- CLAIM C5.  For every rectangular template grid: a successful
`parse_template` places a column in the data zone iff the column contains
at least one NA cell (same rule for rows); and whenever the candidate
data-column or data-row index list is non-empty but not a contiguous
ascending run, `parse_template` fails with a StructuralError. -/
theorem parse_template_data_zone (g : Grid) (hrect : rectB g = true) :
    (∀ d, parse_template g = .ok d →
      (∀ c, c ∈ d.data_cols_list ↔
        c < nCols g ∧ ∃ r < nRows g, (getCell g r c).isNa = true) ∧
      (∀ r, r ∈ d.data_rows_list ↔
        r < nRows g ∧ ∃ c < nCols g, (getCell g r c).isNa = true)) ∧
    (((dataColsList g ≠ [] ∧ ¬ isAscRun ((dataColsList g).map Int.ofNat)) ∨
      (dataRowsList g ≠ [] ∧ ¬ isAscRun ((dataRowsList g).map Int.ofNat))) →
      ∃ m, parse_template g = .error (.structural m)) := by
  constructor
  · intro d hd
    obtain ⟨h1, h2, rm, cm, hrm, hcm, rfl⟩ := parse_template_ok_inv hd
    constructor
    · intro c
      simp only [mem_dataColsList]
      rw [and_congr_right_iff]
      intro _
      exact colHasNa_iff
    · intro r
      simp only [mem_dataRowsList]
      constructor
      · rintro ⟨hr, hna⟩
        exact ⟨hr, (rowHasNa_iff hrect hr).1 hna⟩
      · rintro ⟨hr, hna⟩
        exact ⟨hr, (rowHasNa_iff hrect hr).2 hna⟩
  · intro hbad
    rcases hbad with ⟨hne, hnr⟩ | ⟨hne, hnr⟩
    · refine ⟨"Data columns must be contiguous", ?_⟩
      unfold parse_template
      rw [assertSerial_structural hne hnr]
    · have hcne : dataColsList g ≠ [] := by
        obtain ⟨r, hrl⟩ := List.exists_mem_of_ne_nil _ hne
        obtain ⟨hr, hna⟩ := mem_dataRowsList.1 hrl
        obtain ⟨c, hc, hcna⟩ := (rowHasNa_iff hrect hr).1 hna
        intro hcon
        have : c ∈ dataColsList g :=
          mem_dataColsList.2 ⟨hc, colHasNa_iff.2 ⟨r, hr, hcna⟩⟩
        rw [hcon] at this
        exact absurd this (by simp)
      by_cases hcr : isAscRun ((dataColsList g).map Int.ofNat)
      · refine ⟨"Data rows must be contiguous", ?_⟩
        unfold parse_template
        rw [assertSerial_ok hcne hcr, assertSerial_structural hne hnr]
      · refine ⟨"Data columns must be contiguous", ?_⟩
        unfold parse_template
        rw [assertSerial_structural hcne hcr]

/-- Witness for C5: a 2×2 grid with one NA in column 1 / rows 0 and 1. -/
theorem parse_template_data_zone_witness :
    (∀ d, parse_template [[Cell.str "batch[tablemeta]", Cell.empty],
        [Cell.str "x", Cell.empty]] = .ok d →
      (∀ c, c ∈ d.data_cols_list ↔
        c < nCols [[Cell.str "batch[tablemeta]", Cell.empty],
          [Cell.str "x", Cell.empty]] ∧
        ∃ r < nRows [[Cell.str "batch[tablemeta]", Cell.empty],
          [Cell.str "x", Cell.empty]],
          (getCell [[Cell.str "batch[tablemeta]", Cell.empty],
            [Cell.str "x", Cell.empty]] r c).isNa = true) ∧
      (∀ r, r ∈ d.data_rows_list ↔
        r < nRows [[Cell.str "batch[tablemeta]", Cell.empty],
          [Cell.str "x", Cell.empty]] ∧
        ∃ c < nCols [[Cell.str "batch[tablemeta]", Cell.empty],
          [Cell.str "x", Cell.empty]],
          (getCell [[Cell.str "batch[tablemeta]", Cell.empty],
            [Cell.str "x", Cell.empty]] r c).isNa = true)) ∧
    (((dataColsList [[Cell.str "batch[tablemeta]", Cell.empty],
        [Cell.str "x", Cell.empty]] ≠ [] ∧
       ¬ isAscRun ((dataColsList [[Cell.str "batch[tablemeta]", Cell.empty],
        [Cell.str "x", Cell.empty]]).map Int.ofNat)) ∨
      (dataRowsList [[Cell.str "batch[tablemeta]", Cell.empty],
        [Cell.str "x", Cell.empty]] ≠ [] ∧
       ¬ isAscRun ((dataRowsList [[Cell.str "batch[tablemeta]", Cell.empty],
        [Cell.str "x", Cell.empty]]).map Int.ofNat))) →
      ∃ m, parse_template [[Cell.str "batch[tablemeta]", Cell.empty],
        [Cell.str "x", Cell.empty]] = .error (.structural m)) :=
  parse_template_data_zone
    [[Cell.str "batch[tablemeta]", Cell.empty], [Cell.str "x", Cell.empty]]
    (by decide)

/-! ## C6 and C7: the metadata scans -/

theorem foldl_min_cast (x : Nat) (xs : List Nat) :
    (xs.map Int.ofNat).foldl min (Int.ofNat x) = Int.ofNat (xs.foldl min x) := by
  induction xs generalizing x with
  | nil => rfl
  | cons y ys ih =>
    simp only [List.map_cons, List.foldl_cons]
    rw [show min (Int.ofNat x) (Int.ofNat y) = Int.ofNat (min x y) from by
      simp [Int.ofNat_eq_coe, Nat.cast_min]]
    exact ih (min x y)

theorem foldl_max_cast (x : Nat) (xs : List Nat) :
    (xs.map Int.ofNat).foldl max (Int.ofNat x) = Int.ofNat (xs.foldl max x) := by
  induction xs generalizing x with
  | nil => rfl
  | cons y ys ih =>
    simp only [List.map_cons, List.foldl_cons]
    rw [show max (Int.ofNat x) (Int.ofNat y) = Int.ofNat (max x y) from by
      simp [Int.ofNat_eq_coe, Nat.cast_max]]
    exact ih (max x y)

/-- A range list that passed `check_int_serial` contains every index
between its min and its max. -/
theorem serial_mem {ranges : List Nat} (hne : ranges ≠ [])
    (hser : check_int_serial (ranges.map Int.ofNat) false = some true)
    {j : Nat} (h1 : minNat ranges ≤ j) (h2 : j ≤ maxNat ranges) : j ∈ ranges := by
  obtain ⟨x, xs, rfl⟩ := List.exists_cons_of_ne_nil hne
  rw [List.map_cons, check_int_serial_false_eq] at hser
  have hrun : isAscRun (Int.ofNat x :: xs.map Int.ofNat) := by
    simpa using hser
  have heq := eq_intRange_iff_ascRun.2 hrun
  rw [foldl_min_cast, foldl_max_cast] at heq
  have hj : (Int.ofNat j) ∈ Int.ofNat x :: xs.map Int.ofNat := by
    rw [heq]
    refine mem_intRange_iff.2 ⟨?_, ?_⟩
    · simp only [minNat] at h1
      exact Int.ofNat_le.2 h1
    · simp only [maxNat] at h2
      exact Int.ofNat_le.2 h2
  rw [show (Int.ofNat x :: xs.map Int.ofNat) = (x :: xs).map Int.ofNat from rfl] at hj
  obtain ⟨j', hj', hcast⟩ := List.mem_map.1 hj
  exact Int.ofNat.inj hcast ▸ hj'

theorem mem_setKey {m : List (String × MetaRange)} {k : String} {v : MetaRange}
    {ent : String × MetaRange} (h : ent ∈ setKey m k v) :
    ent ∈ m ∨ ent = (k, v) := by
  induction m with
  | nil =>
    simp [setKey] at h
    exact Or.inr h
  | cons kv rest ih =>
    unfold setKey at h
    split at h
    · rcases List.mem_cons.1 h with h' | h'
      · exact Or.inr h'
      · exact Or.inl (List.mem_cons_of_mem _ h')
    · rcases List.mem_cons.1 h with h' | h'
      · exact Or.inl (h' ▸ List.mem_cons_self _ _)
      · rcases ih h' with h'' | h''
        · exact Or.inl (List.mem_cons_of_mem _ h'')
        · exact Or.inr h''

/-- Every error a metadata scan can raise is structural (the `ValueError`
arm is unreachable: the range list of a non-empty match list is
non-empty). -/
theorem metaScan_error_structural {collect : Nat → List (String × Nat)}
    {allowed : List Nat} {tag : String} {cols : List Nat}
    {acc : List (String × MetaRange)} {e : Err}
    (h : metaScan collect allowed tag cols acc = .error e) :
    ∃ m, e = .structural m := by
  induction cols generalizing acc with
  | nil => exact absurd h (by simp [metaScan])
  | cons i rest ih =>
    unfold metaScan at h
    split at h
    · exact ih h
    · rename_i hpairs
      split at h
      · exact ⟨_, (Except.error.injEq _ _ ▸ h).symm⟩
      · split at h
        · rename_i hnone
          have : ((collect i).map Prod.snd).map Int.ofNat ≠ [] := by
            simp
            exact hpairs
          exact absurd hnone (check_int_serial_ne_none this false)
        · exact ⟨_, (Except.error.injEq _ _ ▸ h).symm⟩
        · split at h
          · exact ih h
          · exact ⟨_, (Except.error.injEq _ _ ▸ h).symm⟩

/-- Success inversion: every scanned column with matches passed all three
gates (single key, contiguous range, range inside the data zone). -/
theorem metaScan_ok_cols {collect : Nat → List (String × Nat)}
    {allowed : List Nat} {tag : String} {cols : List Nat}
    {acc res : List (String × MetaRange)}
    (h : metaScan collect allowed tag cols acc = .ok res) :
    ∀ i ∈ cols, collect i ≠ [] →
      ((collect i).map Prod.fst).dedup.length = 1 ∧
      check_int_serial (((collect i).map Prod.snd).map Int.ofNat) false = some true ∧
      ((collect i).map Prod.snd).all (fun r => allowed.contains r) = true := by
  induction cols generalizing acc with
  | nil => simp
  | cons i rest ih =>
    intro j hj hcj
    unfold metaScan at h
    split at h
    · rename_i hpairs
      rcases List.mem_cons.1 hj with rfl | hj'
      · exact absurd hpairs hcj
      · exact ih h j hj' hcj
    · rename_i hpairs
      split at h
      · exact absurd h (by simp)
      · rename_i hkeys
        split at h
        · exact absurd h (by simp)
        · exact absurd h (by simp)
        · rename_i hser
          split at h
          · rename_i hall
            rcases List.mem_cons.1 hj with rfl | hj'
            · exact ⟨by omega, hser, hall⟩
            · exact ih h j hj' hcj
          · exact absurd h (by simp)

/-- Success invariant: every recorded entry's start..stop range lies inside
`allowed`. -/
theorem metaScan_ok_range_subset {collect : Nat → List (String × Nat)}
    {allowed : List Nat} {tag : String} {cols : List Nat}
    {acc res : List (String × MetaRange)}
    (h : metaScan collect allowed tag cols acc = .ok res)
    (hacc : ∀ ent ∈ acc, ∀ j, ent.2.start ≤ j → j ≤ ent.2.stop → j ∈ allowed) :
    ∀ ent ∈ res, ∀ j, ent.2.start ≤ j → j ≤ ent.2.stop → j ∈ allowed := by
  induction cols generalizing acc with
  | nil =>
    have : acc = res := by simpa [metaScan] using h
    exact this ▸ hacc
  | cons i rest ih =>
    unfold metaScan at h
    split at h
    · exact ih h hacc
    · rename_i hpairs
      split at h
      · exact absurd h (by simp)
      · split at h
        · exact absurd h (by simp)
        · exact absurd h (by simp)
        · rename_i hser
          split at h
          · rename_i hall
            refine ih h ?_
            intro ent hent j hj1 hj2
            rcases mem_setKey hent with h' | h'
            · exact hacc ent h' j hj1 hj2
            · subst h'
              simp only at hj1 hj2
              have hrne : (collect i).map Prod.snd ≠ [] := by
                simp
                exact hpairs
              have hjr : j ∈ (collect i).map Prod.snd :=
                serial_mem hrne hser hj1 hj2
              have := List.all_eq_true.1 hall j hjr
              simpa using this
          · exact absurd h (by simp)

/-- With at least one NA cell in the grid, `parse_template` either
succeeds or fails with a StructuralError (the ValueError of `min()` on an
empty sequence is out of reach). -/
theorem parse_template_ok_or_structural (g : Grid) (hrect : rectB g = true)
    (hna : ∃ r < nRows g, ∃ c < nCols g, (getCell g r c).isNa = true) :
    (∃ d, parse_template g = .ok d) ∨
    (∃ m, parse_template g = .error (.structural m)) := by
  obtain ⟨r, hr, c, hc, hcell⟩ := hna
  have hcne : dataColsList g ≠ [] := by
    intro hcon
    have : c ∈ dataColsList g := mem_dataColsList.2 ⟨hc, colHasNa_iff.2 ⟨r, hr, hcell⟩⟩
    rw [hcon] at this
    exact absurd this (by simp)
  have hrne : dataRowsList g ≠ [] := by
    intro hcon
    have hcol : rowHasNa (g.getD r []) = true :=
      (rowHasNa_iff hrect hr).2 ⟨c, hc, hcell⟩
    have : r ∈ dataRowsList g := mem_dataRowsList.2 ⟨hr, hcol⟩
    rw [hcon] at this
    exact absurd this (by simp)
  unfold parse_template
  by_cases h1 : isAscRun ((dataColsList g).map Int.ofNat)
  · rw [assertSerial_ok hcne h1]
    by_cases h2 : isAscRun ((dataRowsList g).map Int.ofNat)
    · rw [assertSerial_ok hrne h2]
      cases hrm : metaScan (collectRowmeta g) (dataRowsList g) "rowmeta"
          (nonDataCols g) [] with
      | error e =>
        obtain ⟨m, rfl⟩ := metaScan_error_structural hrm
        exact Or.inr ⟨m, rfl⟩
      | ok rm =>
        cases hcm : metaScan (collectColmeta g) (dataColsList g) "colmeta"
            (nonDataRows g) [] with
        | error e =>
          obtain ⟨m, rfl⟩ := metaScan_error_structural hcm
          exact Or.inr ⟨m, rfl⟩
        | ok cm => exact Or.inl ⟨_, rfl⟩
    · rw [assertSerial_structural hrne h2]
      exact Or.inr ⟨_, rfl⟩
  · rw [assertSerial_structural hcne h1]
    exact Or.inr ⟨_, rfl⟩

theorem two_le_dedup {l : List String} {a b : String} (ha : a ∈ l) (hb : b ∈ l)
    (hne : a ≠ b) : 2 ≤ l.dedup.length := by
  have ha' : a ∈ l.dedup := List.mem_dedup.2 ha
  have hb' : b ∈ l.dedup := List.mem_dedup.2 hb
  cases hd : l.dedup with
  | nil =>
    rw [hd] at ha'
    exact absurd ha' (by simp)
  | cons x xs =>
    cases xs with
    | nil =>
      rw [hd] at ha' hb'
      simp at ha' hb'
      exact absurd (ha'.trans hb'.symm) hne
    | cons y ys => simp [hd]

/-- CLAIM C6.  On a rectangular template grid with a data zone (at least
one NA cell): if any single non-data column carries rowmeta markers under
two distinct keys, or any single non-data row carries colmeta markers
under two distinct keys, `parse_template` fails with a StructuralError
rather than returning a descriptor. -/
theorem parse_template_multi_key_fails (g : Grid) (hrect : rectB g = true)
    (hna : ∃ r < nRows g, ∃ c < nCols g, (getCell g r c).isNa = true)
    (hbad :
      (∃ i ∈ nonDataCols g, ∃ p1 ∈ collectRowmeta g i, ∃ p2 ∈ collectRowmeta g i,
        Prod.fst p1 ≠ Prod.fst p2) ∨
      (∃ i ∈ nonDataRows g, ∃ p1 ∈ collectColmeta g i, ∃ p2 ∈ collectColmeta g i,
        Prod.fst p1 ≠ Prod.fst p2)) :
    ∃ m, parse_template g = .error (.structural m) := by
  rcases parse_template_ok_or_structural g hrect hna with ⟨d, hd⟩ | hok
  · exfalso
    obtain ⟨h1, h2, rm, cm, hrm, hcm, hdesc⟩ := parse_template_ok_inv hd
    rcases hbad with ⟨i, hi, p1, hp1, p2, hp2, hne⟩ | ⟨i, hi, p1, hp1, p2, hp2, hne⟩
    · have hne' : collectRowmeta g i ≠ [] := by
        intro hcon
        rw [hcon] at hp1
        exact absurd hp1 (by simp)
      have := (metaScan_ok_cols hrm i hi hne').1
      have h2d : 2 ≤ ((collectRowmeta g i).map Prod.fst).dedup.length :=
        two_le_dedup (List.mem_map_of_mem _ hp1) (List.mem_map_of_mem _ hp2) hne
      omega
    · have hne' : collectColmeta g i ≠ [] := by
        intro hcon
        rw [hcon] at hp1
        exact absurd hp1 (by simp)
      have := (metaScan_ok_cols hcm i hi hne').1
      have h2d : 2 ≤ ((collectColmeta g i).map Prod.fst).dedup.length :=
        two_le_dedup (List.mem_map_of_mem _ hp1) (List.mem_map_of_mem _ hp2) hne
      omega
  · exact hok

/-- CLAIM C7.  On a rectangular template grid with a data zone: every
descriptor `parse_template` returns has each rowmeta start..end range
inside `data_rows_list` and each colmeta start..end range inside
`data_cols_list`; and a template violating this (a rowmeta marker in a
non-data column whose row lies outside the data rows, or the colmeta
analogue) makes `parse_template` fail with a StructuralError instead. -/
theorem parse_template_meta_ranges (g : Grid) (hrect : rectB g = true)
    (hna : ∃ r < nRows g, ∃ c < nCols g, (getCell g r c).isNa = true) :
    (∀ d, parse_template g = .ok d →
      (∀ ent ∈ d.rowmeta, ∀ j, ent.2.start ≤ j → j ≤ ent.2.stop →
        j ∈ d.data_rows_list) ∧
      (∀ ent ∈ d.colmeta, ∀ j, ent.2.start ≤ j → j ≤ ent.2.stop →
        j ∈ d.data_cols_list)) ∧
    (((∃ i ∈ nonDataCols g, ∃ p ∈ collectRowmeta g i,
        Prod.snd p ∉ dataRowsList g) ∨
      (∃ i ∈ nonDataRows g, ∃ p ∈ collectColmeta g i,
        Prod.snd p ∉ dataColsList g)) →
      ∃ m, parse_template g = .error (.structural m)) := by
  constructor
  · intro d hd
    obtain ⟨h1, h2, rm, cm, hrm, hcm, rfl⟩ := parse_template_ok_inv hd
    exact ⟨metaScan_ok_range_subset hrm (by simp),
           metaScan_ok_range_subset hcm (by simp)⟩
  · intro hbad
    rcases parse_template_ok_or_structural g hrect hna with ⟨d, hd⟩ | hok
    · exfalso
      obtain ⟨h1, h2, rm, cm, hrm, hcm, hdesc⟩ := parse_template_ok_inv hd
      rcases hbad with ⟨i, hi, p, hp, hout⟩ | ⟨i, hi, p, hp, hout⟩
      · have hne' : collectRowmeta g i ≠ [] := by
          intro hcon
          rw [hcon] at hp
          exact absurd hp (by simp)
        have hall := (metaScan_ok_cols hrm i hi hne').2.2
        have : Prod.snd p ∈ (collectRowmeta g i).map Prod.snd :=
          List.mem_map_of_mem _ hp
        have := List.all_eq_true.1 hall _ this
        exact hout (by simpa using this)
      · have hne' : collectColmeta g i ≠ [] := by
          intro hcon
          rw [hcon] at hp
          exact absurd hp (by simp)
        have hall := (metaScan_ok_cols hcm i hi hne').2.2
        have : Prod.snd p ∈ (collectColmeta g i).map Prod.snd :=
          List.mem_map_of_mem _ hp
        have := List.all_eq_true.1 hall _ this
        exact hout (by simpa using this)
    · exact hok

/-- A template grid whose single metadata column carries two distinct
rowmeta keys. -/
def multiKeyGrid : Grid := [[.str "a[rowmeta]", .empty], [.str "b[rowmeta]", .empty]]

/-- A template grid with a rowmeta marker in a non-data row position
(row 0 has no NA, so it is outside the data zone). -/
def outOfZoneGrid : Grid := [[.str "a[rowmeta]", .str "x"], [.str "m", .empty]]

/-- Witness for C6: two distinct rowmeta keys in column 0. -/
theorem parse_template_multi_key_fails_witness :
    ∃ m, parse_template multiKeyGrid = .error (.structural m) :=
  parse_template_multi_key_fails multiKeyGrid (by decide) (by decide) (by decide)

/-- Witness for C7 at a concrete grid whose rowmeta marker row lies
outside the data rows. -/
theorem parse_template_meta_ranges_witness :
    (∀ d, parse_template outOfZoneGrid = .ok d →
      (∀ ent ∈ d.rowmeta, ∀ j, ent.2.start ≤ j → j ≤ ent.2.stop →
        j ∈ d.data_rows_list) ∧
      (∀ ent ∈ d.colmeta, ∀ j, ent.2.start ≤ j → j ≤ ent.2.stop →
        j ∈ d.data_cols_list)) ∧
    (((∃ i ∈ nonDataCols outOfZoneGrid, ∃ p ∈ collectRowmeta outOfZoneGrid i,
        Prod.snd p ∉ dataRowsList outOfZoneGrid) ∨
      (∃ i ∈ nonDataRows outOfZoneGrid, ∃ p ∈ collectColmeta outOfZoneGrid i,
        Prod.snd p ∉ dataColsList outOfZoneGrid)) →
      ∃ m, parse_template outOfZoneGrid = .error (.structural m)) :=
  parse_template_meta_ranges outOfZoneGrid (by decide) (by decide)

/-! ## block.read_block_excel -/

/-- Python 3 `round` of the true quotient a / b (banker's rounding:
ties go to the even integer), for b > 0.  The source rounds the float
quotient; at the small magnitudes of sheet dimensions the float value of
a / b rounds exactly like the rational. -/
def pyRound (a b : Nat) : Nat :=
  if 2 * (a % b) < b then a / b
  else if b < 2 * (a % b) then a / b + 1
  else if (a / b) % 2 = 0 then a / b else a / b + 1

/-- `full.iloc[range(rs, rs + nr), range(cs, cs + nc)]` (always called
in-range). -/
def sliceGrid (g : Grid) (rs nr cs nc : Nat) : Grid :=
  ((g.drop rs).take nr).map (fun row => (row.drop cs).take nc)

/-- `all(block.isna().all())`. -/
def allNa (b : Grid) : Bool := b.all (fun row => row.all Cell.isNa)

/-- `full.iloc[skipheader : nrows - skipfooter, skipleft : ncols - skipright]`
followed by the positional re-keying. -/
def trimGrid (full : Grid) (sh sf sl sr : Nat) : Grid :=
  ((full.drop sh).take (full.length - sf - sh)).map
    (fun row => (row.drop sl).take (nCols full - sr - sl))

/-- `nblock_in_row = round(full.shape[1] / (block_ncol + intervalcols))`. -/
def nblocksH (trimmed : Grid) (tmpl : Descriptor) (ic : Nat) : Nat :=
  pyRound (nCols trimmed) (tmpl.block_ncol + ic)

/-- `nblock_in_col = round(full.shape[0] / (block_nrow + intervalrows))`. -/
def nblocksV (trimmed : Grid) (tmpl : Descriptor) (ir : Nat) : Nat :=
  pyRound (nRows trimmed) (tmpl.block_nrow + ir)

/-- The double loop over block start positions (row-major), discarding the
fully NA slices; each kept entry is (row start, col start, slice). -/
def keptBlocks (trimmed : Grid) (tmpl : Descriptor) (ir ic : Nat) :
    List (Nat × Nat × Grid) :=
  ((List.range (nblocksV trimmed tmpl ir)).map
      (fun i => i * (tmpl.block_nrow + ir))).flatMap
    (fun rs => ((List.range (nblocksH trimmed tmpl ic)).map
        (fun j => j * (tmpl.block_ncol + ic))).filterMap
      (fun cs =>
        if allNa (sliceGrid trimmed rs tmpl.block_nrow cs tmpl.block_ncol) then none
        else some (rs, cs, sliceGrid trimmed rs tmpl.block_nrow cs tmpl.block_ncol)))

/-- `[parse_block(b, tmpl) for b in blocks]`: the first failing block
propagates its exception.  The block sliced at (rs, cs) keeps the trimmed
frame's positional labels rs..rs+nrow-1 / cs..cs+ncol-1. -/
def parseAll (tmpl : Descriptor) :
    List (Nat × Nat × Grid) → Except Err (List (List OutRow))
  | [] => .ok []
  | x :: rest =>
    match parse_block x.2.2 (List.range' x.1 tmpl.block_nrow)
        (List.range' x.2.1 tmpl.block_ncol) tmpl with
    | .error e => .error e
    | .ok y =>
      match parseAll tmpl rest with
      | .error e => .error e
      | .ok ys => .ok (y :: ys)

/-- `read_block_excel` on the loaded grid.  The check order follows the
source: column count (a zero divisor raises ZeroDivisionError before the
assert), column assert, row count, row assert, block extraction, parsing,
`pd.concat` (which raises ValueError on an empty block list). -/
def read_block_excel (full : Grid) (tmpl : Descriptor)
    (skipheader skipfooter skipleft skipright intervalrows intervalcols : Nat) :
    Except Err (List OutRow) :=
  if tmpl.block_ncol + intervalcols = 0 then
    .error (.value "ZeroDivisionError: division by zero")
  else if (nCols (trimGrid full skipheader skipfooter skipleft skipright) : Int) ≠
      (nblocksH (trimGrid full skipheader skipfooter skipleft skipright) tmpl
          intervalcols : Int) * tmpl.block_ncol +
        ((nblocksH (trimGrid full skipheader skipfooter skipleft skipright) tmpl
          intervalcols : Int) - 1) * intervalcols then
    .error (.shape "Columns don't fit block")
  else if tmpl.block_nrow + intervalrows = 0 then
    .error (.value "ZeroDivisionError: division by zero")
  else if (nRows (trimGrid full skipheader skipfooter skipleft skipright) : Int) ≠
      (nblocksV (trimGrid full skipheader skipfooter skipleft skipright) tmpl
          intervalrows : Int) * tmpl.block_nrow +
        ((nblocksV (trimGrid full skipheader skipfooter skipleft skipright) tmpl
          intervalrows : Int) - 1) * intervalrows then
    .error (.shape "Rows don't fit block")
  else
    match parseAll tmpl (keptBlocks
        (trimGrid full skipheader skipfooter skipleft skipright) tmpl
        intervalrows intervalcols) with
    | .error e => .error e
    | .ok parsed =>
      if parsed = [] then .error (.value "No objects to concatenate")
      else .ok parsed.flatten

/-! ## C8 and C10: tiling arithmetic and the empty-sheet failure -/

theorem nCols_of_pos {g : Grid} (h : 0 < g.length) : nCols g = (g[0]).length := by
  unfold nCols
  rw [List.headD_eq_head?, List.head?_eq_getElem?, List.getElem?_eq_getElem h]
  rfl

theorem rect_row_len {g : Grid} (hrect : rectB g = true) {idx : Nat}
    (h : idx < g.length) : (g[idx]).length = nCols g := by
  have := List.all_eq_true.1 hrect _ (List.getElem_mem h)
  simpa using this

theorem tablemetaVals_error_value {b : Grid} {l : List (String × TMVal)} {e : Err}
    (h : tablemetaVals b l = .error e) : ∃ m, e = .value m := by
  induction l with
  | nil => exact absurd h (by simp [tablemetaVals])
  | cons kv rest ih =>
    unfold tablemetaVals at h
    split at h
    · rename_i e' he'
      cases hv : kv.2 with
      | single p =>
        rw [hv] at he'
        exact absurd he' (by simp [tmLookup])
      | rawList lp =>
        rw [hv] at he'
        unfold tmLookup at he'
        have h1 := Except.error.inj he'
        have h2 := Except.error.inj h
        exact ⟨_, by rw [← h2, ← h1]⟩
    · split at h
      · rename_i e'' he''
        have hee : e'' = e := Except.error.inj h
        subst hee
        exact ih he''
      · exact absurd h (by simp)

theorem parse_block_error_kinds {b : Grid} {rr rc : List Nat}
    {tmpl : Descriptor} {e : Err}
    (h : parse_block b rr rc tmpl = .error e) :
    (¬ (nRows b = tmpl.block_nrow ∧ nCols b = tmpl.block_ncol) ∧
      e = .shape "block shape mismatch") ∨ (∃ m, e = .value m) := by
  unfold parse_block at h
  split at h
  · rename_i hcond
    exact Or.inl ⟨hcond, (Except.error.inj h).symm⟩
  · split at h
    · rename_i e' he'
      obtain ⟨m, rfl⟩ := tablemetaVals_error_value he'
      exact Or.inr ⟨m, (Except.error.inj h).symm⟩
    · exact absurd h (by simp)

theorem parseAll_error_value {tmpl : Descriptor}
    {blocks : List (Nat × Nat × Grid)} {e : Err}
    (hd : ∀ x ∈ blocks, nRows x.2.2 = tmpl.block_nrow ∧ nCols x.2.2 = tmpl.block_ncol)
    (h : parseAll tmpl blocks = .error e) : ∃ m, e = .value m := by
  induction blocks with
  | nil => exact absurd h (by simp [parseAll])
  | cons x rest ih =>
    unfold parseAll at h
    split at h
    · rename_i e' he'
      rcases parse_block_error_kinds he' with ⟨hbad, _⟩ | ⟨m, rfl⟩
      · exact absurd (hd x (by simp)) hbad
      · exact ⟨m, (Except.error.inj h).symm⟩
    · split at h
      · rename_i e'' he''
        have hee : e'' = e := Except.error.inj h
        subst hee
        exact ih (fun y hy => hd y (by simp [hy])) he''
      · exact absurd h (by simp)

/-- Every kept block slice has exactly the template's dimensions, given
the trimmed frame is rectangular and both fit checks passed. -/
theorem keptBlocks_dims {trimmed : Grid} {tmpl : Descriptor} {ir ic : Nat}
    (hrect : rectB trimmed = true)
    (hcols : (nCols trimmed : Int) =
      (nblocksH trimmed tmpl ic : Int) * tmpl.block_ncol +
      ((nblocksH trimmed tmpl ic : Int) - 1) * ic)
    (hrows : (nRows trimmed : Int) =
      (nblocksV trimmed tmpl ir : Int) * tmpl.block_nrow +
      ((nblocksV trimmed tmpl ir : Int) - 1) * ir) :
    ∀ x ∈ keptBlocks trimmed tmpl ir ic,
      nRows x.2.2 = tmpl.block_nrow ∧ nCols x.2.2 = tmpl.block_ncol := by
  intro x hx
  unfold keptBlocks at hx
  obtain ⟨rs, hrs, hx2⟩ := List.mem_flatMap.1 hx
  obtain ⟨i, hi, rfl⟩ := List.mem_map.1 hrs
  obtain ⟨cs, hcs, hfm⟩ := List.mem_filterMap.1 hx2
  obtain ⟨j, hj, rfl⟩ := List.mem_map.1 hcs
  rw [List.mem_range] at hi hj
  split at hfm
  · exact absurd hfm (by simp)
  · rename_i hnotna
    have hx' := Option.some.inj hfm
    subst hx'
    simp only
    obtain ⟨MV, hMV⟩ : ∃ MV, nblocksV trimmed tmpl ir = MV + 1 :=
      ⟨nblocksV trimmed tmpl ir - 1, by omega⟩
    obtain ⟨MH, hMH⟩ : ∃ MH, nblocksH trimmed tmpl ic = MH + 1 :=
      ⟨nblocksH trimmed tmpl ic - 1, by omega⟩
    rw [hMV] at hrows hi
    rw [hMH] at hcols hj
    have hR : nRows trimmed = (MV + 1) * tmpl.block_nrow + MV * ir := by
      have h1 : ((nRows trimmed : Nat) : Int) =
          (((MV + 1) * tmpl.block_nrow + MV * ir : Nat) : Int) := by
        push_cast
        push_cast at hrows
        linarith
      exact_mod_cast h1
    have hC : nCols trimmed = (MH + 1) * tmpl.block_ncol + MH * ic := by
      have h1 : ((nCols trimmed : Nat) : Int) =
          (((MH + 1) * tmpl.block_ncol + MH * ic : Nat) : Int) := by
        push_cast
        push_cast at hcols
        linarith
      exact_mod_cast h1
    have hrsb : i * (tmpl.block_nrow + ir) + tmpl.block_nrow ≤ nRows trimmed := by
      have hmul : i * (tmpl.block_nrow + ir) ≤ MV * (tmpl.block_nrow + ir) :=
        Nat.mul_le_mul_right _ (by omega)
      calc i * (tmpl.block_nrow + ir) + tmpl.block_nrow
          ≤ MV * (tmpl.block_nrow + ir) + tmpl.block_nrow := by omega
        _ = (MV + 1) * tmpl.block_nrow + MV * ir := by ring
        _ = nRows trimmed := hR.symm
    have hcsb : j * (tmpl.block_ncol + ic) + tmpl.block_ncol ≤ nCols trimmed := by
      have hmul : j * (tmpl.block_ncol + ic) ≤ MH * (tmpl.block_ncol + ic) :=
        Nat.mul_le_mul_right _ (by omega)
      calc j * (tmpl.block_ncol + ic) + tmpl.block_ncol
          ≤ MH * (tmpl.block_ncol + ic) + tmpl.block_ncol := by omega
        _ = (MH + 1) * tmpl.block_ncol + MH * ic := by ring
        _ = nCols trimmed := hC.symm
    have hlenrows : nRows (sliceGrid trimmed (i * (tmpl.block_nrow + ir))
        tmpl.block_nrow (j * (tmpl.block_ncol + ic)) tmpl.block_ncol) =
        tmpl.block_nrow := by
      unfold sliceGrid nRows
      rw [List.length_map, List.length_take, List.length_drop]
      unfold nRows at hrsb
      omega
    refine ⟨hlenrows, ?_⟩
    have hpos : 0 < tmpl.block_nrow := by
      by_contra hz
      push_neg at hz
      have hz' : tmpl.block_nrow = 0 := by omega
      have hempty : sliceGrid trimmed (i * (tmpl.block_nrow + ir))
          tmpl.block_nrow (j * (tmpl.block_ncol + ic)) tmpl.block_ncol = [] := by
        unfold sliceGrid
        rw [hz']
        simp
      exact hnotna (by rw [hempty]; rfl)
    have hslicepos : 0 < nRows (sliceGrid trimmed (i * (tmpl.block_nrow + ir))
        tmpl.block_nrow (j * (tmpl.block_ncol + ic)) tmpl.block_ncol) := by
      rw [hlenrows]
      exact hpos
    rw [nCols_of_pos hslicepos]
    simp only [sliceGrid, List.getElem_map, List.getElem_take, List.getElem_drop]
    rw [List.length_take, List.length_drop]
    rw [rect_row_len hrect (by unfold nRows at hrsb; omega)]
    unfold nRows at hcsb
    omega

/-- CLAIM C8.  For every grid, descriptor and gap sizes (with non-zero
block-plus-gap pitch and a rectangular trimmed frame), `read_block_excel`
computes the block-grid column count as `round(trimmed_cols /
(block_ncol + col_gap))` (`nblocksH`) and fails with a ShapeError unless
`count * block_ncol + (count - 1) * col_gap` equals the trimmed column
count exactly; symmetrically for rows; and when both equalities hold no
ShapeError is raised (nothing is silently rounded or truncated). -/
theorem read_block_excel_fit (full : Grid) (tmpl : Descriptor)
    (sh sf sl sr ir ic : Nat)
    (hrect : rectB (trimGrid full sh sf sl sr) = true)
    (hc0 : tmpl.block_ncol + ic ≠ 0) (hr0 : tmpl.block_nrow + ir ≠ 0) :
    ((nCols (trimGrid full sh sf sl sr) : Int) ≠
        (nblocksH (trimGrid full sh sf sl sr) tmpl ic : Int) * tmpl.block_ncol +
        ((nblocksH (trimGrid full sh sf sl sr) tmpl ic : Int) - 1) * ic →
      read_block_excel full tmpl sh sf sl sr ir ic =
        .error (.shape "Columns don't fit block")) ∧
    ((nCols (trimGrid full sh sf sl sr) : Int) =
        (nblocksH (trimGrid full sh sf sl sr) tmpl ic : Int) * tmpl.block_ncol +
        ((nblocksH (trimGrid full sh sf sl sr) tmpl ic : Int) - 1) * ic →
     (nRows (trimGrid full sh sf sl sr) : Int) ≠
        (nblocksV (trimGrid full sh sf sl sr) tmpl ir : Int) * tmpl.block_nrow +
        ((nblocksV (trimGrid full sh sf sl sr) tmpl ir : Int) - 1) * ir →
      read_block_excel full tmpl sh sf sl sr ir ic =
        .error (.shape "Rows don't fit block")) ∧
    ((nCols (trimGrid full sh sf sl sr) : Int) =
        (nblocksH (trimGrid full sh sf sl sr) tmpl ic : Int) * tmpl.block_ncol +
        ((nblocksH (trimGrid full sh sf sl sr) tmpl ic : Int) - 1) * ic →
     (nRows (trimGrid full sh sf sl sr) : Int) =
        (nblocksV (trimGrid full sh sf sl sr) tmpl ir : Int) * tmpl.block_nrow +
        ((nblocksV (trimGrid full sh sf sl sr) tmpl ir : Int) - 1) * ir →
      ∀ m, read_block_excel full tmpl sh sf sl sr ir ic ≠
        .error (.shape m)) := by
  refine ⟨?_, ?_, ?_⟩
  · intro hne
    unfold read_block_excel
    rw [if_neg hc0, if_pos hne]
  · intro heq hne
    unfold read_block_excel
    rw [if_neg hc0, if_neg (fun hk => hk heq), if_neg hr0, if_pos hne]
  · intro heqc heqr m
    unfold read_block_excel
    rw [if_neg hc0, if_neg (fun hk => hk heqc), if_neg hr0,
      if_neg (fun hk => hk heqr)]
    cases hpa : parseAll tmpl (keptBlocks (trimGrid full sh sf sl sr) tmpl ir ic) with
    | error e =>
      obtain ⟨m', rfl⟩ :=
        parseAll_error_value (keptBlocks_dims hrect heqc heqr) hpa
      show Except.error (Err.value m') ≠ Except.error (Err.shape m)
      simp
    | ok parsed =>
      show (if parsed = [] then
          Except.error (Err.value "No objects to concatenate")
        else Except.ok parsed.flatten) ≠ Except.error (Err.shape m)
      split
      · simp
      · simp

/-- A 1×1 all-data descriptor used as concrete input below. -/
def unitDescr : Descriptor :=
  { block_nrow := 1, block_ncol := 1, data_nrow := 1, data_ncol := 1,
    data_rows_list := [0], data_cols_list := [0],
    tablemeta := [], rowmeta := [], colmeta := [] }

/-- Witness for C8: on a 1×1 grid with the 1×1 descriptor the fit checks
hold, so no ShapeError is possible. -/
theorem read_block_excel_fit_witness :
    read_block_excel [[Cell.num 5]] unitDescr 0 0 0 0 0 0 ≠
      .error (.shape "Columns don't fit block") :=
  (read_block_excel_fit [[Cell.num 5]] unitDescr 0 0 0 0 0 0
    (by decide) (by decide) (by decide)).2.2 (by decide) (by decide)
    "Columns don't fit block" 

/-- CLAIM C10.  When the trimmed grid passes both fit checks but every
block slice is entirely NA, every slice is discarded and
`read_block_excel` raises the `pd.concat` ValueError ("No objects to
concatenate") instead of returning an empty table. -/
theorem read_block_excel_all_empty (full : Grid) (tmpl : Descriptor)
    (sh sf sl sr ir ic : Nat)
    (hc0 : tmpl.block_ncol + ic ≠ 0) (hr0 : tmpl.block_nrow + ir ≠ 0)
    (hcols : (nCols (trimGrid full sh sf sl sr) : Int) =
        (nblocksH (trimGrid full sh sf sl sr) tmpl ic : Int) * tmpl.block_ncol +
        ((nblocksH (trimGrid full sh sf sl sr) tmpl ic : Int) - 1) * ic)
    (hrows : (nRows (trimGrid full sh sf sl sr) : Int) =
        (nblocksV (trimGrid full sh sf sl sr) tmpl ir : Int) * tmpl.block_nrow +
        ((nblocksV (trimGrid full sh sf sl sr) tmpl ir : Int) - 1) * ir)
    (hna : ∀ i < nblocksV (trimGrid full sh sf sl sr) tmpl ir,
      ∀ j < nblocksH (trimGrid full sh sf sl sr) tmpl ic,
        allNa (sliceGrid (trimGrid full sh sf sl sr)
          (i * (tmpl.block_nrow + ir)) tmpl.block_nrow
          (j * (tmpl.block_ncol + ic)) tmpl.block_ncol) = true) :
    read_block_excel full tmpl sh sf sl sr ir ic =
      .error (.value "No objects to concatenate") := by
  unfold read_block_excel
  rw [if_neg hc0, if_neg (fun hk => hk hcols), if_neg hr0,
    if_neg (fun hk => hk hrows)]
  have hkept : keptBlocks (trimGrid full sh sf sl sr) tmpl ir ic = [] := by
    unfold keptBlocks
    rw [List.flatMap_eq_nil_iff]
    intro rs hrs
    rw [List.filterMap_eq_nil_iff]
    intro cs hcs
    obtain ⟨i, hi, rfl⟩ := List.mem_map.1 hrs
    obtain ⟨j, hj, rfl⟩ := List.mem_map.1 hcs
    rw [List.mem_range] at hi hj
    rw [if_pos (hna i hi j hj)]
  rw [hkept]
  rfl

/-- Witness for C10: a single all-NA 1×1 block. -/
theorem read_block_excel_all_empty_witness :
    read_block_excel [[Cell.empty]] unitDescr 0 0 0 0 0 0 =
      .error (.value "No objects to concatenate") :=
  read_block_excel_all_empty [[Cell.empty]] unitDescr 0 0 0 0 0 0
    (by decide) (by decide) (by decide) (by decide) (by decide)

/-! ## C9: tiling N copies of a block

`vtile gap bs` concatenates the grids of `bs` vertically with `gap` rows
between consecutive blocks — the "data grid built by tiling copies of a
block with correct gaps" of the claim. -/

def vtile (gap : Grid) : List Grid → Grid
  | [] => []
  | [b] => b
  | b :: rest => b ++ gap ++ vtile gap rest

theorem vtile_length {gap : Grid} {g nrow : Nat} (hgap : gap.length = g) :
    ∀ {bs : List Grid}, bs ≠ [] → (∀ b ∈ bs, b.length = nrow) →
      (vtile gap bs).length = bs.length * nrow + (bs.length - 1) * g := by
  intro bs
  induction bs with
  | nil => intro h; exact absurd rfl h
  | cons b rest ih =>
    intro _ hdims
    cases rest with
    | nil =>
      show b.length = 1 * nrow + 0 * g
      rw [hdims b (by simp)]
      ring
    | cons c t =>
      show (b ++ gap ++ vtile gap (c :: t)).length = _
      rw [List.length_append, List.length_append,
        ih (by simp) (fun x hx => hdims x (by simp [hx])),
        hdims b (by simp), hgap]
      simp only [List.length_cons, Nat.add_sub_cancel]
      ring

theorem vtile_rows {gap : Grid} {ncol : Nat}
    (hgap : ∀ row ∈ gap, row.length = ncol) :
    ∀ {bs : List Grid}, (∀ b ∈ bs, ∀ row ∈ b, row.length = ncol) →
      ∀ row ∈ vtile gap bs, row.length = ncol := by
  intro bs
  induction bs with
  | nil => intro _ row hrow; exact absurd hrow (by simp [vtile])
  | cons b rest ih =>
    intro hdims row hrow
    cases rest with
    | nil => exact hdims b (by simp) row hrow
    | cons c t =>
      have : row ∈ b ++ gap ++ vtile gap (c :: t) := hrow
      rcases List.mem_append.1 this with h1 | h2
      · rcases List.mem_append.1 h1 with hb | hg
        · exact hdims b (by simp) row hb
        · exact hgap row hg
      · exact ih (fun x hx => hdims x (by simp [hx])) row h2

theorem vtile_slice {gap : Grid} {g nrow : Nat} (hgap : gap.length = g) :
    ∀ (bs : List Grid) (i : Nat), i < bs.length →
      (∀ b ∈ bs, b.length = nrow) →
      ((vtile gap bs).drop (i * (nrow + g))).take nrow = bs.getD i [] := by
  intro bs i
  induction i generalizing bs with
  | zero =>
    intro hi hdims
    cases bs with
    | nil => simp at hi
    | cons b rest =>
      simp only [Nat.zero_mul, List.drop_zero, List.getD_cons_zero]
      cases rest with
      | nil =>
        show (vtile gap [b]).take nrow = b
        show b.take nrow = b
        rw [← hdims b (by simp)]
        exact List.take_length b
      | cons c t =>
        show (b ++ gap ++ vtile gap (c :: t)).take nrow = b
        rw [List.append_assoc, ← hdims b (by simp)]
        exact List.take_left b _
  | succ i ih =>
    intro hi hdims
    cases bs with
    | nil => simp at hi
    | cons b rest =>
      simp only [List.length_cons] at hi
      have hrest : rest ≠ [] := by
        intro hcon
        rw [hcon] at hi
        simp at hi
      obtain ⟨c, t, rfl⟩ := List.exists_cons_of_ne_nil hrest
      show ((b ++ gap ++ vtile gap (c :: t)).drop ((i + 1) * (nrow + g))).take nrow
          = (b :: c :: t).getD (i + 1) []
      rw [List.append_assoc]
      have hsplit : (i + 1) * (nrow + g) = b.length + (gap.length + i * (nrow + g)) := by
        rw [hdims b (by simp), hgap]
        ring
      rw [hsplit, List.drop_append, List.drop_append]
      show ((vtile gap (c :: t)).drop (i * (nrow + g))).take nrow
          = (c :: t).getD i []
      exact ih (c :: t) (by simpa using hi) (fun x hx => hdims x (by simp [hx]))

theorem pyRound_self {a : Nat} (h : 0 < a) : pyRound a a = 1 := by
  unfold pyRound
  rw [Nat.mod_self, Nat.div_self h]
  simp [h]

/-- The block count round-trips through banker's rounding when the gap is
smaller than the block height. -/
theorem pyRound_tile {n nrow g : Nat} (hn : 1 ≤ n) (hrow : 0 < nrow)
    (hg : g < nrow) : pyRound (n * nrow + (n - 1) * g) (nrow + g) = n := by
  obtain ⟨m, rfl⟩ : ∃ m, n = m + 1 := ⟨n - 1, by omega⟩
  rcases Nat.eq_zero_or_pos g with hg0 | hgpos
  · subst hg0
    have ha : (m + 1) * nrow + (m + 1 - 1) * 0 = (m + 1) * (nrow + 0) := by ring
    rw [ha]
    unfold pyRound
    rw [Nat.mul_mod_left, Nat.mul_div_cancel _ (by omega : 0 < nrow + 0)]
    simp [hrow]
  · have ha : (m + 1) * nrow + (m + 1 - 1) * g = nrow + (nrow + g) * m := by
      simp only [Nat.add_sub_cancel]
      ring
    unfold pyRound
    rw [ha, Nat.add_mul_div_left _ _ (by omega : 0 < nrow + g),
      Nat.add_mul_mod_self_left, Nat.div_eq_of_lt (by omega),
      Nat.mod_eq_of_lt (by omega)]
    have hlt : ¬ 2 * nrow < nrow + g := by omega
    have hgt : nrow + g < 2 * nrow := by omega
    rw [if_neg hlt, if_pos hgt]
    omega

theorem trimGrid_id {g : Grid} (hrect : rectB g = true) :
    trimGrid g 0 0 0 0 = g := by
  unfold trimGrid
  simp only [Nat.sub_zero, List.drop_zero, List.take_length]
  have : ∀ row ∈ g, (row.drop 0).take (nCols g - 0 - 0) = row := by
    intro row hrow
    have hlen : row.length = nCols g := by
      have := List.all_eq_true.1 hrect row hrow
      simpa using this
    simp only [Nat.sub_zero, List.drop_zero]
    rw [← hlen]
    exact List.take_length row
  calc g.map (fun row => (row.drop 0).take (nCols g - 0 - 0))
      = g.map id := List.map_congr_left this
    _ = g := List.map_id g

theorem tablemetaVals_ok {b : Grid} {l : List (String × TMVal)}
    (h : ∀ kv ∈ l, ∃ p, kv.2 = TMVal.single p) :
    ∃ v, tablemetaVals b l = .ok v := by
  induction l with
  | nil => exact ⟨[], rfl⟩
  | cons kv rest ih =>
    obtain ⟨p, hp⟩ := h kv (by simp)
    obtain ⟨v, hv⟩ := ih (fun x hx => h x (by simp [hx]))
    refine ⟨(kv.1, getCell b p.1 p.2) :: v, ?_⟩
    unfold tablemetaVals
    rw [hp]
    show (match tablemetaVals b rest with
      | Except.error e => Except.error e
      | Except.ok cs => Except.ok ((kv.1, getCell b p.1 p.2) :: cs)) = _
    rw [hv]

theorem sum_map_const {α : Type} (l : List α) (c : Nat) :
    (l.map (fun _ => c)).sum = l.length * c := by
  induction l with
  | nil => simp
  | cons x xs ih =>
    simp [ih]
    ring

theorem meltData_length (b : Grid) (tmpl : Descriptor) :
    (meltData b tmpl).length =
      tmpl.data_cols_list.length * tmpl.data_rows_list.length := by
  unfold meltData
  rw [List.length_flatMap]
  have hmap : tmpl.data_cols_list.map
      (List.length ∘ fun c => tmpl.data_rows_list.map
        (fun r => (r, c, getCell b r c))) =
      tmpl.data_cols_list.map (fun _ => tmpl.data_rows_list.length) := by
    apply List.map_congr_left
    intro c _
    simp
  rw [hmap, sum_map_const]

/-- A block of the template's exact dimensions whose descriptor has only
collapsed tablemeta positions parses successfully, into one output row per
data-zone cell. -/
theorem parse_block_ok_of {b : Grid} {rr rc : List Nat} {tmpl : Descriptor}
    (hr : nRows b = tmpl.block_nrow) (hc : nCols b = tmpl.block_ncol)
    (htm : ∀ kv ∈ tmpl.tablemeta, ∃ p, kv.2 = TMVal.single p) :
    ∃ out, parse_block b rr rc tmpl = .ok out ∧
      out.length = tmpl.data_cols_list.length * tmpl.data_rows_list.length := by
  obtain ⟨v, hv⟩ := tablemetaVals_ok (b := b) htm
  refine ⟨(meltData b tmpl).map (mkOutRow b rr rc tmpl v), ?_, ?_⟩
  · unfold parse_block
    rw [if_neg (by simp [hr, hc]), hv]
  · rw [List.length_map]
    exact meltData_length b tmpl

theorem parseAll_ok_lengths {tmpl : Descriptor}
    {blocks : List (Nat × Nat × Grid)} {L : Nat}
    (h : ∀ x ∈ blocks, ∃ out, parse_block x.2.2 (List.range' x.1 tmpl.block_nrow)
      (List.range' x.2.1 tmpl.block_ncol) tmpl = .ok out ∧ out.length = L) :
    ∃ parsed, parseAll tmpl blocks = .ok parsed ∧
      parsed.length = blocks.length ∧
      parsed.flatten.length = blocks.length * L := by
  induction blocks with
  | nil => exact ⟨[], rfl, rfl, by simp⟩
  | cons x rest ih =>
    obtain ⟨out, hout, hlen⟩ := h x (by simp)
    obtain ⟨parsed, hp, hplen, hflen⟩ := ih (fun y hy => h y (by simp [hy]))
    refine ⟨out :: parsed, ?_, by simp [hplen], ?_⟩
    · unfold parseAll
      rw [hout]
      show (match parseAll tmpl rest with
        | Except.error e => Except.error e
        | Except.ok ys => Except.ok (out :: ys)) = _
      rw [hp]
    · simp only [List.flatten_cons, List.length_append, hflen, hlen,
        List.length_cons]
      ring

theorem flatMap_congr_mem {α β : Type} {l : List α} {f h : α → List β}
    (H : ∀ a ∈ l, f a = h a) : l.flatMap f = l.flatMap h := by
  induction l with
  | nil => rfl
  | cons x xs ih =>
    simp only [List.flatMap_cons]
    rw [H x (by simp), ih (fun a ha => H a (by simp [ha]))]

theorem flatMap_ite_length {α β : Type} (l : List α) (p : α → Bool)
    (f : α → β) :
    (l.flatMap (fun a => if p a then [] else [f a])).length =
      l.countP (fun a => !p a) := by
  induction l with
  | nil => rfl
  | cons x xs ih =>
    simp only [List.flatMap_cons, List.length_append, ih, List.countP_cons]
    cases hx : p x
    · simp [hx]
      omega
    · simp [hx]

theorem countP_range_getD (bs : List Grid) (q : Grid → Bool) :
    (List.range bs.length).countP (fun i => q (bs.getD i [])) = bs.countP q := by
  induction bs with
  | nil => rfl
  | cons b rest ih =>
    simp only [List.length_cons, List.range_succ_eq_map, List.countP_cons]
    rw [List.countP_map]
    have : List.countP ((fun i => q ((b :: rest).getD i [])) ∘ Nat.succ)
        (List.range rest.length) =
        List.countP (fun i => q (rest.getD i [])) (List.range rest.length) := by
      apply List.countP_congr
      intro i _
      simp [Function.comp, List.getD_cons_succ]
    rw [this, ih]
    simp [List.getD_cons_zero]

/-- Tiling property, general form: reading a vertical tiling of blocks
(every block of the template's dimensions, gap shorter than the block)
returns one output row per data-zone cell of every non-all-NA block. -/
theorem read_blocks_vtile (tmpl : Descriptor) (bs : List Grid) (gap : Grid)
    (g : Nat) (hbs : bs ≠ [])
    (hdR : ∀ b ∈ bs, b.length = tmpl.block_nrow)
    (hdC : ∀ b ∈ bs, ∀ row ∈ b, row.length = tmpl.block_ncol)
    (hgapr : gap.length = g)
    (hgapc : ∀ row ∈ gap, row.length = tmpl.block_ncol)
    (hg : g < tmpl.block_nrow)
    (hncol : 0 < tmpl.block_ncol)
    (htm : ∀ kv ∈ tmpl.tablemeta, ∃ p, kv.2 = TMVal.single p)
    (hsome : ∃ b ∈ bs, allNa b = false) :
    ∃ out, read_block_excel (vtile gap bs) tmpl 0 0 0 0 g 0 = .ok out ∧
      out.length = (bs.countP (fun b => !allNa b)) *
        (tmpl.data_cols_list.length * tmpl.data_rows_list.length) := by
  have hrow0 : 0 < tmpl.block_nrow := by omega
  have hn1 : 1 ≤ bs.length := List.length_pos.2 hbs
  have hVrows : ∀ row ∈ vtile gap bs, row.length = tmpl.block_ncol :=
    vtile_rows hgapc hdC
  have hVlen : (vtile gap bs).length =
      bs.length * tmpl.block_nrow + (bs.length - 1) * g :=
    vtile_length hgapr hbs hdR
  have hVpos : 0 < (vtile gap bs).length := by
    have := Nat.mul_pos (show 0 < bs.length from hn1) hrow0
    omega
  have hVC : nCols (vtile gap bs) = tmpl.block_ncol := by
    rw [nCols_of_pos hVpos]
    exact hVrows _ (List.getElem_mem hVpos)
  have hVrect : rectB (vtile gap bs) = true := by
    unfold rectB
    rw [List.all_eq_true]
    intro row hrow
    simp [hVrows row hrow, hVC]
  have htrim : trimGrid (vtile gap bs) 0 0 0 0 = vtile gap bs := trimGrid_id hVrect
  have hnH : nblocksH (vtile gap bs) tmpl 0 = 1 := by
    unfold nblocksH
    rw [hVC, Nat.add_zero]
    exact pyRound_self hncol
  have hcolseq : (nCols (vtile gap bs) : Int) =
      (nblocksH (vtile gap bs) tmpl 0 : Int) * tmpl.block_ncol +
      ((nblocksH (vtile gap bs) tmpl 0 : Int) - 1) * 0 := by
    rw [hnH, hVC]
    push_cast
    ring
  have hnV : nblocksV (vtile gap bs) tmpl g = bs.length := by
    unfold nblocksV nRows
    rw [hVlen]
    exact pyRound_tile hn1 hrow0 hg
  have hrowseq : (nRows (vtile gap bs) : Int) =
      (nblocksV (vtile gap bs) tmpl g : Int) * tmpl.block_nrow +
      ((nblocksV (vtile gap bs) tmpl g : Int) - 1) * g := by
    rw [hnV]
    unfold nRows
    rw [hVlen, Nat.cast_add, Nat.cast_mul, Nat.cast_mul, Nat.cast_sub hn1]
    push_cast
    ring
  have hkept : keptBlocks (vtile gap bs) tmpl g 0 =
      (List.range bs.length).flatMap (fun i =>
        if allNa (bs.getD i []) then []
        else [(i * (tmpl.block_nrow + g), 0, bs.getD i [])]) := by
    unfold keptBlocks
    rw [hnH, hnV]
    have hcol : (List.range 1).map (fun j => j * (tmpl.block_ncol + 0)) =
        [0] := by
      rw [show (1 : Nat) = 0 + 1 from rfl, List.range_succ]
      simp
    rw [hcol, List.flatMap_map]
    apply flatMap_congr_mem
    intro i hi
    rw [List.mem_range] at hi
    have hmem : bs.getD i [] ∈ bs := by
      rw [getD_eq_getElem hi]
      exact List.getElem_mem hi
    have hslice : sliceGrid (vtile gap bs) (i * (tmpl.block_nrow + g))
        tmpl.block_nrow 0 tmpl.block_ncol = bs.getD i [] := by
      unfold sliceGrid
      rw [vtile_slice hgapr bs i hi hdR]
      calc (bs.getD i []).map (fun row => (row.drop 0).take tmpl.block_ncol)
          = (bs.getD i []).map id := List.map_congr_left (fun row hrow => by
            simp only [List.drop_zero, id]
            rw [← hdC _ hmem row hrow]
            exact List.take_length row)
        _ = _ := List.map_id _
    rw [List.filterMap_cons, List.filterMap_nil, hslice]
    cases hna : allNa (bs.getD i [])
    · rw [if_neg (by simp [hna]), if_neg (by simp [hna])]
    · rw [if_pos (by simp [hna]), if_pos (by simp [hna])]
  have hall : ∀ x ∈ (List.range bs.length).flatMap (fun i =>
      if allNa (bs.getD i []) then []
      else [(i * (tmpl.block_nrow + g), 0, bs.getD i [])]),
      ∃ out, parse_block x.2.2 (List.range' x.1 tmpl.block_nrow)
        (List.range' x.2.1 tmpl.block_ncol) tmpl = .ok out ∧
        out.length = tmpl.data_cols_list.length * tmpl.data_rows_list.length := by
    intro x hx
    obtain ⟨i, hi, hxm⟩ := List.mem_flatMap.1 hx
    rw [List.mem_range] at hi
    have hmem : bs.getD i [] ∈ bs := by
      rw [getD_eq_getElem hi]
      exact List.getElem_mem hi
    by_cases hna : allNa (bs.getD i []) = true
    · rw [if_pos hna] at hxm
      exact absurd hxm (by simp)
    · rw [if_neg hna] at hxm
      have hx' : x = (i * (tmpl.block_nrow + g), 0, bs.getD i []) := by
        simpa using hxm
      subst hx'
      simp only
      have hbpos : 0 < (bs.getD i []).length := by
        rw [hdR _ hmem]
        exact hrow0
      refine parse_block_ok_of ?_ ?_ htm
      · exact hdR _ hmem
      · rw [nCols_of_pos hbpos]
        exact hdC _ hmem _ (List.getElem_mem hbpos)
  obtain ⟨parsed, hpar, hplen, hflat⟩ := parseAll_ok_lengths hall
  have hkl : ((List.range bs.length).flatMap (fun i =>
      if allNa (bs.getD i []) then []
      else [(i * (tmpl.block_nrow + g), 0, bs.getD i [])])).length =
      bs.countP (fun b => !allNa b) := by
    rw [flatMap_ite_length (List.range bs.length)
      (fun i => allNa (bs.getD i [])) _]
    exact countP_range_getD bs (fun b => !allNa b)
  have hcp : 0 < bs.countP (fun b => !allNa b) := by
    rw [List.countP_pos_iff]
    obtain ⟨b, hb, hbna⟩ := hsome
    exact ⟨b, hb, by simp [hbna]⟩
  have hne : parsed ≠ [] := by
    intro hcon
    rw [hcon] at hplen
    rw [hkl] at hplen
    simp at hplen
    omega
  refine ⟨parsed.flatten, ?_, ?_⟩
  · unfold read_block_excel
    rw [htrim]
    rw [if_neg (by omega), if_neg (fun hk => hk hcolseq), if_neg (by omega),
      if_neg (fun hk => hk hrowseq), hkept, hpar]
    show (if parsed = [] then
        Except.error (Err.value "No objects to concatenate")
      else Except.ok parsed.flatten) = Except.ok parsed.flatten
    rw [if_neg hne]
  · rw [hflat, hkl]

theorem set_replicate {α : Type} (B E : α) :
    ∀ (k N : Nat), k < N → (List.replicate N B).set k E =
      List.replicate k B ++ E :: List.replicate (N - k - 1) B := by
  intro k
  induction k with
  | zero =>
    intro N hN
    obtain ⟨M, rfl⟩ : ∃ M, N = M + 1 := ⟨N - 1, by omega⟩
    rw [List.replicate_succ]
    simp
  | succ k ih =>
    intro N hN
    obtain ⟨M, rfl⟩ : ∃ M, N = M + 1 := ⟨N - 1, by omega⟩
    rw [List.replicate_succ, List.set_cons_succ, ih M (by omega)]
    rw [show M + 1 - (k + 1) - 1 = M - k - 1 from by omega]
    rfl

theorem allNa_empty_block (nr nc : Nat) :
    allNa (List.replicate nr (List.replicate nc Cell.empty)) = true := by
  unfold allNa
  rw [List.all_eq_true]
  intro row hrow
  rw [List.eq_of_mem_replicate hrow, List.all_eq_true]
  intro cell hcell
  rw [List.eq_of_mem_replicate hcell]
  rfl

/-- CLAIM C9, amended.  For a data grid built by stacking N copies of a
valid non-empty block with gaps strictly smaller than the block height,
`read_block_excel` returns exactly N × data_nrow × data_ncol rows; and
with one of the N copies (N ≥ 2) replaced by an all-NA block, that slice
is silently discarded, yielding (N − 1) × data_nrow × data_ncol rows. -/
theorem read_block_excel_tiling (tmpl : Descriptor) (B gap : Grid)
    (N k g : Nat)
    (hBr : B.length = tmpl.block_nrow)
    (hBc : ∀ row ∈ B, row.length = tmpl.block_ncol)
    (hgapr : gap.length = g)
    (hgapc : ∀ row ∈ gap, row.length = tmpl.block_ncol)
    (hg : g < tmpl.block_nrow) (hncol : 0 < tmpl.block_ncol)
    (hdn : tmpl.data_nrow = tmpl.data_rows_list.length)
    (hdc : tmpl.data_ncol = tmpl.data_cols_list.length)
    (htm : ∀ kv ∈ tmpl.tablemeta, ∃ p, kv.2 = TMVal.single p)
    (hBne : allNa B = false) (hN : 1 ≤ N) (hk : k < N) :
    (∃ out, read_block_excel (vtile gap (List.replicate N B)) tmpl 0 0 0 0 g 0 =
        .ok out ∧ out.length = N * tmpl.data_nrow * tmpl.data_ncol) ∧
    (2 ≤ N → ∃ out, read_block_excel (vtile gap ((List.replicate N B).set k
        (List.replicate tmpl.block_nrow
          (List.replicate tmpl.block_ncol Cell.empty)))) tmpl 0 0 0 0 g 0 =
        .ok out ∧ out.length = (N - 1) * tmpl.data_nrow * tmpl.data_ncol) := by
  constructor
  · obtain ⟨out, hok, hlen⟩ := read_blocks_vtile tmpl (List.replicate N B) gap g
      (by simp; omega)
      (fun b hb => (List.eq_of_mem_replicate hb) ▸ hBr)
      (fun b hb => (List.eq_of_mem_replicate hb) ▸ hBc)
      hgapr hgapc hg hncol htm
      ⟨B, List.mem_replicate.2 ⟨by omega, rfl⟩, hBne⟩
    refine ⟨out, hok, ?_⟩
    rw [hlen, List.countP_replicate]
    simp only [hBne, Bool.not_false, if_true]
    rw [hdn, hdc]
    ring
  · intro hN2
    set E := List.replicate tmpl.block_nrow
      (List.replicate tmpl.block_ncol Cell.empty) with hE
    have hsetE : (List.replicate N B).set k E =
        List.replicate k B ++ E :: List.replicate (N - k - 1) B :=
      set_replicate B E k N hk
    have hEr : E.length = tmpl.block_nrow := by
      rw [hE, List.length_replicate]
    have hEc : ∀ row ∈ E, row.length = tmpl.block_ncol := by
      intro row hrow
      rw [List.eq_of_mem_replicate hrow, List.length_replicate]
    have hmemBE : ∀ b ∈ (List.replicate N B).set k E, b = B ∨ b = E := by
      intro b hb
      rw [hsetE] at hb
      rcases List.mem_append.1 hb with h | h
      · exact Or.inl (List.eq_of_mem_replicate h)
      · rcases List.mem_cons.1 h with h | h
        · exact Or.inr h
        · exact Or.inl (List.eq_of_mem_replicate h)
    obtain ⟨out, hok, hlen⟩ := read_blocks_vtile tmpl
      ((List.replicate N B).set k E) gap g
      (by rw [hsetE]; simp)
      (fun b hb => by rcases hmemBE b hb with rfl | rfl
                      · exact hBr
                      · exact hEr)
      (fun b hb => by rcases hmemBE b hb with rfl | rfl
                      · exact hBc
                      · exact hEc)
      hgapr hgapc hg hncol htm
      (by
        rw [hsetE]
        rcases Nat.eq_zero_or_pos k with hk0 | hkpos
        · refine ⟨B, ?_, hBne⟩
          subst hk0
          refine List.mem_append.2 (Or.inr (List.mem_cons.2 (Or.inr ?_)))
          exact List.mem_replicate.2 ⟨by omega, rfl⟩
        · refine ⟨B, ?_, hBne⟩
          refine List.mem_append.2 (Or.inl ?_)
          exact List.mem_replicate.2 ⟨by omega, rfl⟩)
    refine ⟨out, hok, ?_⟩
    rw [hlen]
    have hcount : ((List.replicate N B).set k E).countP (fun b => !allNa b) =
        N - 1 := by
      rw [hsetE, List.countP_append, List.countP_cons, List.countP_replicate,
        List.countP_replicate, hE]
      simp [hBne, allNa_empty_block]
      omega
    rw [hcount, hdn, hdc]
    ring

/-- CLAIM C9, counterexample to the unrestricted claim: (1) stacking N = 2
correct copies of a 1×1 block with a gap of 2 (> block_nrow) makes the
rounded count wrong and `read_block_excel` fails with ShapeError instead
of returning 2 rows; (2) at N = 1, replacing the single copy by an
all-empty block raises the concat error instead of yielding 0 rows. -/
theorem read_block_excel_tiling_counterexample :
    read_block_excel
        (vtile [[Cell.empty], [Cell.empty]] [[[Cell.num 5]], [[Cell.num 5]]])
        unitDescr 0 0 0 0 2 0 = .error (.shape "Rows don't fit block") ∧
    read_block_excel (vtile [] [[[Cell.empty]]]) unitDescr 0 0 0 0 0 0 =
      .error (.value "No objects to concatenate") :=
  ⟨by decide, by decide⟩

/-- Witness for the amended C9 at N = 2 copies of a 1×1 block, gap 0. -/
theorem read_block_excel_tiling_witness :
    (∃ out, read_block_excel (vtile [] (List.replicate 2 [[Cell.num 5]]))
        unitDescr 0 0 0 0 0 0 = .ok out ∧
      out.length = 2 * unitDescr.data_nrow * unitDescr.data_ncol) ∧
    (2 ≤ 2 → ∃ out, read_block_excel
        (vtile [] ((List.replicate 2 [[Cell.num 5]]).set 0
          (List.replicate unitDescr.block_nrow
            (List.replicate unitDescr.block_ncol Cell.empty))))
        unitDescr 0 0 0 0 0 0 = .ok out ∧
      out.length = (2 - 1) * unitDescr.data_nrow * unitDescr.data_ncol) :=
  read_block_excel_tiling unitDescr [[Cell.num 5]] [] 2 0 0 (by decide)
    (by decide) (by decide) (by decide) (by decide) (by decide) (by decide)
    (by decide) (by simp [unitDescr]) (by decide) (by decide) (by decide)

end Minexcel
